import Mathlib

/-!
Shallow embedding of the `roasted` ledger library (crate `libroasted`) and
proofs about its specification.

Source files embedded here:
* `src/libroasted/src/amount.rs`  — `TxnPrice`, `TxnAmount`, `Add`/`Sub`/`Neg`.
* `src/libroasted/src/account.rs` — `ParsedAccount`, `TxnAccount`,
  `AccountActivities`, `AccountStore` (`open`, `close`, `txnify`,
  `txn_account_valid_at`, segment interning).
* `src/libroasted/src/transaction.rs` — `ParsedTransaction` elision check,
  `Transaction::from_parser`, `Transaction::sum`, `Transaction::errors`.

Modelling conventions:
* Rust `f64` nominals are modelled as `ℚ` (`Rat`); the claims under study are
  about the algebraic structure of the computations, and every concrete input
  appearing in them is exactly representable.
* `chrono::NaiveDate` is modelled as `Nat` (dates only ever get compared);
  concrete dates are written `yyyymmdd`, which preserves their order.
* `BTreeMap<Vec<usize>, AccountActivities>` is modelled as a function
  `List Nat → Option AccountActivities` (the map's lookup semantics), with
  `insert` as pointwise update — this captures the map's one-value-per-key
  behaviour exactly.
* Rust operations that can panic (`Vec` indexing, `Option::unwrap`,
  `Vec::insert` out of range) are embedded in the `PResult` type with an
  explicit `panic` outcome.
-/

namespace Roasted

/-! ## amount.rs -/

/-- Embeds `TxnPrice` (amount.rs): a conversion quote. -/
structure TxnPrice where
  nominal : Rat
  currency : Nat
deriving DecidableEq, Repr

/-- Embeds `TxnAmount` (amount.rs). -/
structure TxnAmount where
  nominal : Rat
  currency : Nat
  prices : List TxnPrice
deriving DecidableEq, Repr

/-- Embeds `TxnAmount::zero` (amount.rs lines 100-106). -/
def TxnAmount.zero (currency : Nat) : TxnAmount :=
  { nominal := 0, currency := currency, prices := [] }

/-- Embeds `TxnAmount::is_zero` (amount.rs lines 107-109): exact comparison of
the nominal with zero. -/
def TxnAmount.is_zero (a : TxnAmount) : Bool :=
  a.nominal == 0

/-- Embeds `impl Add for &TxnAmount` (amount.rs lines 112-134). -/
def TxnAmount.add (a b : TxnAmount) : TxnAmount :=
  let sum :=
    if a.currency = b.currency then
      a.nominal + b.nominal
    else
      let conversion_unit :=
        match b.prices.find? (fun item => item.currency == a.currency) with
        | some c => c.nominal
        | none => 1
      a.nominal + b.nominal * conversion_unit
  { nominal := sum, currency := a.currency, prices := a.prices }

/-- Embeds `impl Neg for &TxnAmount` (amount.rs lines 144-154). -/
def TxnAmount.neg (a : TxnAmount) : TxnAmount :=
  { nominal := -a.nominal, currency := a.currency, prices := a.prices }

/-- Embeds `impl Sub for &TxnAmount` (amount.rs lines 136-142):
`self + &(-rhs)`. -/
def TxnAmount.sub (a b : TxnAmount) : TxnAmount :=
  a.add b.neg

/-- C3: `add(a, b)` keeps `a`'s currency; equal currencies sum the nominals;
different currencies convert `b`'s nominal by the first quote in `b.prices`
targeting `a`'s currency, falling back to a factor of 1 when no quote
matches. -/
theorem C3_add_currency_conversion (a b : TxnAmount) :
    (a.add b).currency = a.currency ∧
    (a.currency = b.currency → (a.add b).nominal = a.nominal + b.nominal) ∧
    (a.currency ≠ b.currency →
      (a.add b).nominal = a.nominal + b.nominal *
        (match b.prices.find? (fun item => item.currency == a.currency) with
         | some c => c.nominal
         | none => 1)) := by
  refine ⟨rfl, fun h => ?_, fun h => ?_⟩
  · simp [TxnAmount.add, h]
  · simp [TxnAmount.add, h]

/-- Witness for C3: a cross-currency addition with no matching quote adds the
raw nominal (factor 1), and the result keeps the left currency. -/
theorem C3_add_currency_conversion_witness :
    (TxnAmount.add ⟨5, 0, []⟩ ⟨7, 1, [⟨2, 3⟩]⟩).currency = 0 ∧
    (TxnAmount.add ⟨5, 0, []⟩ ⟨7, 1, [⟨2, 3⟩]⟩).nominal = 5 + 7 * 1 := by
  refine ⟨(C3_add_currency_conversion ⟨5, 0, []⟩ ⟨7, 1, [⟨2, 3⟩]⟩).1, ?_⟩
  have h := (C3_add_currency_conversion ⟨5, 0, []⟩ ⟨7, 1, [⟨2, 3⟩]⟩).2.2
    (by decide)
  simpa using h

/-! ## account.rs — parsed accounts, display and parsing

Rust strings are handled through their character lists; `splitChar` and
`joinSep` mirror `str::split(':')` and `[&str]::join(":")`. -/

/-- Character-level split, mirroring Rust `str::split(sep)`: always returns at
least one (possibly empty) piece. -/
def splitChar (sep : Char) : List Char → List (List Char)
  | [] => [[]]
  | c :: cs =>
    if c = sep then [] :: splitChar sep cs
    else
      match splitChar sep cs with
      | [] => [[c]]
      | s :: ss => (c :: s) :: ss

/-- Character-level join with a single separator, mirroring
`Vec<&str>::join(sep)`. -/
def joinSep (sep : Char) : List (List Char) → List Char
  | [] => []
  | [s] => s
  | s :: t :: ss => s ++ sep :: joinSep sep (t :: ss)

/-- Character-level prefix test, mirroring `str::starts_with`. -/
def startsWithChars : List Char → List Char → Bool
  | [], _ => true
  | _ :: _, [] => false
  | p :: ps, c :: cs => if p = c then startsWithChars ps cs else false

theorem splitChar_sepFree (sep : Char) (p : List Char)
    (h : ∀ c ∈ p, c ≠ sep) : splitChar sep p = [p] := by
  induction p with
  | nil => rfl
  | cons c cs ih =>
    have hc : c ≠ sep := h c (by simp)
    have ihcs := ih (fun x hx => h x (by simp [hx]))
    simp [splitChar, hc, ihcs]

theorem splitChar_append_sep (sep : Char) (p t : List Char)
    (h : ∀ c ∈ p, c ≠ sep) :
    splitChar sep (p ++ sep :: t) = p :: splitChar sep t := by
  induction p with
  | nil => simp [splitChar]
  | cons c cs ih =>
    have hc : c ≠ sep := h c (by simp)
    have ihcs := ih (fun x hx => h x (by simp [hx]))
    simp [splitChar, hc, ihcs]

theorem splitChar_joinSep (sep : Char) (pieces : List (List Char))
    (hne : pieces ≠ [])
    (h : ∀ p ∈ pieces, ∀ c ∈ p, c ≠ sep) :
    splitChar sep (joinSep sep pieces) = pieces := by
  induction pieces with
  | nil => exact absurd rfl hne
  | cons p rest ih =>
    cases rest with
    | nil =>
      simp [joinSep, splitChar_sepFree sep p (h p (by simp))]
    | cons q qs =>
      have hp : ∀ c ∈ p, c ≠ sep := h p (by simp)
      have hrest : ∀ r ∈ q :: qs, ∀ c ∈ r, c ≠ sep := by
        intro r hr
        exact h r (by simp [hr])
      have := ih (by simp) hrest
      simp [joinSep, splitChar_append_sep sep p _ hp, this]

theorem startsWithChars_append (p t : List Char) :
    startsWithChars p (p ++ t) = true := by
  induction p with
  | nil => rfl
  | cons c cs ih => simp [startsWithChars, ih]

/-- Embeds `ParsedAccount` (account.rs lines 11-18); segments as strings. -/
inductive ParsedAccount where
  | assets (v : List String)
  | expenses (v : List String)
  | liabilities (v : List String)
  | income (v : List String)
  | equity (v : List String)
deriving DecidableEq, Repr

/-- The segment list carried by a parsed account (the field shared by all
five constructors). -/
def ParsedAccount.segs : ParsedAccount → List String
  | .assets v => v
  | .expenses v => v
  | .liabilities v => v
  | .income v => v
  | .equity v => v

/-- Embeds `ParsedAccount::base_name` (account.rs lines 21-23):
`s.split(':').skip(1).collect()`. -/
def ParsedAccount.base_name (s : List Char) : List (List Char) :=
  (splitChar ':' s).drop 1

/-- Embeds `impl Display for ParsedAccount` (account.rs lines 30-40):
the kind word, a colon, then the segments joined by colons. -/
def ParsedAccount.display : ParsedAccount → String
  | .assets v => String.mk ("Assets:".data ++ joinSep ':' (v.map String.data))
  | .expenses v => String.mk ("Expenses:".data ++ joinSep ':' (v.map String.data))
  | .liabilities v => String.mk ("Liabilities:".data ++ joinSep ':' (v.map String.data))
  | .income v => String.mk ("Income:".data ++ joinSep ':' (v.map String.data))
  | .equity v => String.mk ("Equity:".data ++ joinSep ':' (v.map String.data))

/-- Embeds `impl TryFrom<&str> for ParsedAccount` (account.rs lines 42-68):
prefix tests in source order, then `base_name`. -/
def ParsedAccount.tryFrom (s : String) : Except String ParsedAccount :=
  if startsWithChars "Assets:".data s.data then
    .ok (.assets ((ParsedAccount.base_name s.data).map String.mk))
  else if startsWithChars "Expenses:".data s.data then
    .ok (.expenses ((ParsedAccount.base_name s.data).map String.mk))
  else if startsWithChars "Liabilities:".data s.data then
    .ok (.liabilities ((ParsedAccount.base_name s.data).map String.mk))
  else if startsWithChars "Income:".data s.data then
    .ok (.income ((ParsedAccount.base_name s.data).map String.mk))
  else if startsWithChars "Equity:".data s.data then
    .ok (.equity ((ParsedAccount.base_name s.data).map String.mk))
  else
    .error ("input " ++ s ++ " is not a valid token for Account")

theorem data_mk (l : List Char) : (String.mk l).data = l := rfl

theorem base_name_kind (kindc kind : List Char) (hkc : kindc = kind ++ [':'])
    (v : List String)
    (hne : v ≠ []) (hk : ∀ c ∈ kind, c ≠ ':')
    (hsep : ∀ s ∈ v, ∀ c ∈ s.data, c ≠ ':') :
    (ParsedAccount.base_name
        (kindc ++ joinSep ':' (v.map String.data))).map String.mk
      = v := by
  subst hkc
  have hassoc : (kind ++ [':']) ++ joinSep ':' (v.map String.data)
      = kind ++ ':' :: joinSep ':' (v.map String.data) := by
    simp
  have hpieces : ∀ p ∈ v.map String.data, ∀ c ∈ p, c ≠ ':' := by
    intro p hp
    rcases List.mem_map.mp hp with ⟨s, hs, rfl⟩
    exact hsep s hs
  have hvne : v.map String.data ≠ [] := by
    simpa using hne
  rw [hassoc]
  unfold ParsedAccount.base_name
  rw [splitChar_append_sep ':' kind _ hk]
  rw [List.drop_one, List.tail_cons]
  rw [splitChar_joinSep ':' _ hvne hpieces]
  rw [List.map_map]
  have : (String.mk ∘ String.data) = id := by
    funext s
    cases s
    rfl
  rw [this, List.map_id]

/-- C7: formatting any account whose segment list is non-empty and colon-free
via `Display` and re-parsing via `TryFrom<&str>` returns the original
account. -/
theorem C7_display_roundtrip (acc : ParsedAccount)
    (hne : acc.segs ≠ [])
    (hsep : ∀ s ∈ acc.segs, ∀ c ∈ s.data, c ≠ ':') :
    ParsedAccount.tryFrom acc.display = Except.ok acc := by
  cases acc with
  | assets v =>
    simp only [ParsedAccount.segs] at hne hsep
    have hb := base_name_kind "Assets:".data "Assets".data rfl v hne
      (by decide) hsep
    show Except.ok (ParsedAccount.assets ((ParsedAccount.base_name
        ("Assets:".data ++ joinSep ':' (v.map String.data))).map String.mk))
      = Except.ok (ParsedAccount.assets v)
    rw [hb]
  | expenses v =>
    simp only [ParsedAccount.segs] at hne hsep
    have hb := base_name_kind "Expenses:".data "Expenses".data rfl v hne
      (by decide) hsep
    show Except.ok (ParsedAccount.expenses ((ParsedAccount.base_name
        ("Expenses:".data ++ joinSep ':' (v.map String.data))).map String.mk))
      = Except.ok (ParsedAccount.expenses v)
    rw [hb]
  | liabilities v =>
    simp only [ParsedAccount.segs] at hne hsep
    have hb := base_name_kind "Liabilities:".data "Liabilities".data rfl v hne
      (by decide) hsep
    show Except.ok (ParsedAccount.liabilities ((ParsedAccount.base_name
        ("Liabilities:".data ++ joinSep ':' (v.map String.data))).map String.mk))
      = Except.ok (ParsedAccount.liabilities v)
    rw [hb]
  | income v =>
    simp only [ParsedAccount.segs] at hne hsep
    have hb := base_name_kind "Income:".data "Income".data rfl v hne
      (by decide) hsep
    show Except.ok (ParsedAccount.income ((ParsedAccount.base_name
        ("Income:".data ++ joinSep ':' (v.map String.data))).map String.mk))
      = Except.ok (ParsedAccount.income v)
    rw [hb]
  | equity v =>
    simp only [ParsedAccount.segs] at hne hsep
    have hb := base_name_kind "Equity:".data "Equity".data rfl v hne
      (by decide) hsep
    show Except.ok (ParsedAccount.equity ((ParsedAccount.base_name
        ("Equity:".data ++ joinSep ':' (v.map String.data))).map String.mk))
      = Except.ok (ParsedAccount.equity v)
    rw [hb]

/-- Witness for C7: the `Assets(["Bank","Swiss"])` example formats as
`"Assets:Bank:Swiss"` and parses back to itself. -/
theorem C7_display_roundtrip_witness :
    ParsedAccount.tryFrom
        (ParsedAccount.display (.assets ["Bank", "Swiss"]))
      = Except.ok (.assets ["Bank", "Swiss"]) ∧
    ParsedAccount.display (.assets ["Bank", "Swiss"]) = "Assets:Bank:Swiss" := by
  refine ⟨C7_display_roundtrip (.assets ["Bank", "Swiss"]) ?_ ?_, ?_⟩
  · simp [ParsedAccount.segs]
  · decide
  · decide

/-! ## account.rs — the account store -/

/-- Embeds `TxnAccount` (account.rs lines 70-77): a resolved account as
segment indices. -/
inductive TxnAccount where
  | assets (idxs : List Nat)
  | expenses (idxs : List Nat)
  | liabilities (idxs : List Nat)
  | income (idxs : List Nat)
  | equity (idxs : List Nat)
deriving DecidableEq, Repr

/-- Embeds `AccountActivities` (account.rs lines 79-83). -/
structure AccountActivities where
  opened_at : Nat
  closed_at : Option Nat
deriving DecidableEq, Repr

/-- One `BTreeMap<Vec<usize>, AccountActivities>` of the store, modelled by
its lookup function (one value per key, as in the map). -/
def ActivityMap := List Nat → Option AccountActivities

/-- Map update, the semantics of `BTreeMap::insert` (replaces any previous
value at the key). -/
def ActivityMap.insert (m : ActivityMap) (k : List Nat) (v : AccountActivities) :
    ActivityMap :=
  fun q => if q = k then some v else m q

def ActivityMap.empty : ActivityMap := fun _ => none

/-- Embeds `Iterator::position(|s| s == segment)` over the segment table. -/
def position (s : String) : List String → Option Nat
  | [] => none
  | t :: rest => if t = s then some 0 else (position s rest).map (· + 1)

/-- Embeds `AccountStore::index_segments` (account.rs lines 100-112): per
segment, reuse the first matching index or append the segment. Returns the
updated segment table and the index vector. -/
def indexSegments : List String → List String → List String × List Nat
  | segments, [] => (segments, [])
  | segments, s :: rest =>
    match position s segments with
    | some ppos =>
      let p := indexSegments segments rest
      (p.1, ppos :: p.2)
    | none =>
      let p := indexSegments (segments ++ [s]) rest
      (p.1, segments.length :: p.2)

/-- Embeds `AccountStore::lookup_index` (account.rs lines 114-122):
all-or-nothing lookup, never inserting. -/
def lookupIndex (segments : List String) : List String → Option (List Nat)
  | [] => some []
  | s :: rest =>
    match position s segments with
    | none => none
    | some pos => (lookupIndex segments rest).map (pos :: ·)

/-- Embeds `AccountStore` (account.rs lines 85-93). -/
structure AccountStore where
  segments : List String
  assets : ActivityMap
  expenses : ActivityMap
  liabilities : ActivityMap
  income : ActivityMap
  equity : ActivityMap

/-- Embeds `AccountStore::new` (empty store). -/
def AccountStore.new : AccountStore :=
  ⟨[], ActivityMap.empty, ActivityMap.empty, ActivityMap.empty,
    ActivityMap.empty, ActivityMap.empty⟩

/-- The per-kind activity map an account's records live in. -/
def AccountStore.kindMap (store : AccountStore) : ParsedAccount → ActivityMap
  | .assets _ => store.assets
  | .expenses _ => store.expenses
  | .liabilities _ => store.liabilities
  | .income _ => store.income
  | .equity _ => store.equity

/-- The resolved account of the same kind as a parsed account. -/
def ParsedAccount.mkTxn : ParsedAccount → List Nat → TxnAccount
  | .assets _, idxs => .assets idxs
  | .expenses _, idxs => .expenses idxs
  | .liabilities _, idxs => .liabilities idxs
  | .income _, idxs => .income idxs
  | .equity _, idxs => .equity idxs

/-- Embeds `AccountStore::open` (account.rs lines 124-140): interns the
segments and inserts a fresh `AccountActivities { opened_at, closed_at: None }`
record at the resolved key, replacing any previous record (the Rust function
always returns `Ok(())`). -/
def AccountStore.openAccount (store : AccountStore) (acc : ParsedAccount)
    (opened_at : Nat) : AccountStore :=
  match acc with
  | .assets val =>
    let p := indexSegments store.segments val
    { store with segments := p.1,
                 assets := store.assets.insert p.2 ⟨opened_at, none⟩ }
  | .expenses val =>
    let p := indexSegments store.segments val
    { store with segments := p.1,
                 expenses := store.expenses.insert p.2 ⟨opened_at, none⟩ }
  | .liabilities val =>
    let p := indexSegments store.segments val
    { store with segments := p.1,
                 liabilities := store.liabilities.insert p.2 ⟨opened_at, none⟩ }
  | .income val =>
    let p := indexSegments store.segments val
    { store with segments := p.1,
                 income := store.income.insert p.2 ⟨opened_at, none⟩ }
  | .equity val =>
    let p := indexSegments store.segments val
    { store with segments := p.1,
                 equity := store.equity.insert p.2 ⟨opened_at, none⟩ }

/-- Embeds `AccountStore::txn_account_valid_at` (account.rs lines 166-189). -/
def AccountStore.txn_account_valid_at (store : AccountStore) (date : Nat)
    (txn_acct : TxnAccount) : Option TxnAccount :=
  let activities :=
    match txn_acct with
    | .assets idxs => store.assets idxs
    | .expenses idxs => store.expenses idxs
    | .liabilities idxs => store.liabilities idxs
    | .income idxs => store.income idxs
    | .equity idxs => store.equity idxs
  match activities with
  | some activity =>
    match activity.closed_at with
    | some cdate =>
      if activity.opened_at ≤ date ∧ date < cdate then some txn_acct else none
    | none =>
      if activity.opened_at ≤ date then some txn_acct else none
  | none => none

/-- The error text of `txnify`, referencing the account and the date
(account.rs lines 202-205). -/
def notOpenedMsg (acc : ParsedAccount) (date : Nat) : String :=
  "account " ++ acc.display ++ " is not opened at " ++ toString date

/-- Embeds `AccountStore::txnify` (account.rs lines 191-206): pure lookup of
the segment indices, then the validity filter; any failure produces the
account-and-date error. -/
def AccountStore.txnify (store : AccountStore) (date : Nat)
    (acc : ParsedAccount) : Except String TxnAccount :=
  let txn_account :=
    match acc with
    | .assets val => (lookupIndex store.segments val).map TxnAccount.assets
    | .expenses val => (lookupIndex store.segments val).map TxnAccount.expenses
    | .liabilities val =>
      (lookupIndex store.segments val).map TxnAccount.liabilities
    | .income val => (lookupIndex store.segments val).map TxnAccount.income
    | .equity val => (lookupIndex store.segments val).map TxnAccount.equity
  match txn_account.bind (fun t => store.txn_account_valid_at date t) with
  | some t => Except.ok t
  | none => Except.error (notOpenedMsg acc date)

/-- Embeds `AccountStore::close_account` (account.rs lines 142-151). -/
def closeAccount (account_set : ActivityMap) (idxs : List Nat) (date : Nat) :
    Except String ActivityMap :=
  match account_set idxs with
  | some activity =>
    Except.ok (account_set.insert idxs { activity with closed_at := some date })
  | none => Except.error "valid account with no activities"

/-- Embeds `AccountStore::close` (account.rs lines 153-164): resolve at the
close date, then set `closed_at` on the stored record. -/
def AccountStore.close (store : AccountStore) (acc : ParsedAccount)
    (date : Nat) : Except String AccountStore :=
  match store.txnify date acc with
  | .error e => .error e
  | .ok txn_acc =>
    match txn_acc with
    | .assets idxs =>
      (closeAccount store.assets idxs date).map
        (fun m => { store with assets := m })
    | .expenses idxs =>
      (closeAccount store.expenses idxs date).map
        (fun m => { store with expenses := m })
    | .liabilities idxs =>
      (closeAccount store.liabilities idxs date).map
        (fun m => { store with liabilities := m })
    | .income idxs =>
      (closeAccount store.income idxs date).map
        (fun m => { store with income := m })
    | .equity idxs =>
      (closeAccount store.equity idxs date).map
        (fun m => { store with equity := m })

/-! ### Interning lemmas -/

theorem position_get (s : String) (segs : List String) (i : Nat)
    (h : position s segs = some i) : segs.get? i = some s := by
  induction segs generalizing i with
  | nil => simp [position] at h
  | cons t rest ih =>
    by_cases ht : t = s
    · simp [position, ht] at h
      subst ht
      simp [← h]
    · simp [position, ht] at h
      rcases h with ⟨j, hj, rfl⟩
      simpa using ih j hj

theorem position_append_of_some (s : String) (segs ext : List String) (i : Nat)
    (h : position s segs = some i) : position s (segs ++ ext) = some i := by
  induction segs generalizing i with
  | nil => simp [position] at h
  | cons t rest ih =>
    by_cases ht : t = s
    · simp [position, ht] at h ⊢
      exact h
    · simp [position, ht] at h ⊢
      rcases h with ⟨j, hj, rfl⟩
      exact ⟨j, ih j hj, rfl⟩

theorem position_append_self (s : String) (segs : List String)
    (h : position s segs = none) :
    position s (segs ++ [s]) = some segs.length := by
  induction segs with
  | nil => simp [position]
  | cons t rest ih =>
    by_cases ht : t = s
    · simp [position, ht] at h
    · simp [position, ht] at h ⊢
      exact ih h

theorem position_eq_none_iff (s : String) (segs : List String) :
    position s segs = none ↔ s ∉ segs := by
  induction segs with
  | nil => simp [position]
  | cons t rest ih =>
    by_cases ht : t = s
    · simp [position, ht]
    · simp [position, ht, ih, Ne.symm ht]

theorem indexSegments_prefix (v segs : List String) :
    ∃ ext, (indexSegments segs v).1 = segs ++ ext := by
  induction v generalizing segs with
  | nil => exact ⟨[], by simp [indexSegments]⟩
  | cons s rest ih =>
    cases hp : position s segs with
    | some ppos =>
      rcases ih segs with ⟨ext, hext⟩
      exact ⟨ext, by simp [indexSegments, hp, hext]⟩
    | none =>
      rcases ih (segs ++ [s]) with ⟨ext, hext⟩
      refine ⟨[s] ++ ext, ?_⟩
      simp [indexSegments, hp, hext]

theorem lookupIndex_append (segs ext v : List String) (idxs : List Nat)
    (h : lookupIndex segs v = some idxs) :
    lookupIndex (segs ++ ext) v = some idxs := by
  induction v generalizing idxs with
  | nil =>
    simp [lookupIndex] at h
    simp [lookupIndex, h]
  | cons s rest ih =>
    cases hp : position s segs with
    | none => simp [lookupIndex, hp] at h
    | some pos =>
      simp [lookupIndex, hp] at h
      rcases h with ⟨idxs', h', rfl⟩
      simp [lookupIndex, position_append_of_some s segs ext pos hp, ih idxs' h']

theorem indexSegments_lookup (v segs : List String) :
    lookupIndex (indexSegments segs v).1 v = some (indexSegments segs v).2 := by
  induction v generalizing segs with
  | nil => simp [indexSegments, lookupIndex]
  | cons s rest ih =>
    cases hp : position s segs with
    | some ppos =>
      have hrest := ih segs
      rcases indexSegments_prefix rest segs with ⟨ext, hext⟩
      have hpos : position s (indexSegments segs rest).1 = some ppos := by
        rw [hext]
        exact position_append_of_some s segs ext ppos hp
      simp [indexSegments, hp, lookupIndex, hpos, hrest]
    | none =>
      have hrest := ih (segs ++ [s])
      rcases indexSegments_prefix rest (segs ++ [s]) with ⟨ext, hext⟩
      have hpos : position s (indexSegments (segs ++ [s]) rest).1
          = some segs.length := by
        rw [hext]
        exact position_append_of_some s (segs ++ [s]) ext segs.length
          (position_append_self s segs hp)
      simp [indexSegments, hp, lookupIndex, hpos, hrest]

theorem indexSegments_of_lookup (v segs : List String) (idxs : List Nat)
    (h : lookupIndex segs v = some idxs) :
    indexSegments segs v = (segs, idxs) := by
  induction v generalizing idxs with
  | nil =>
    simp [lookupIndex] at h
    simp [indexSegments, ← h]
  | cons s rest ih =>
    cases hp : position s segs with
    | none => simp [lookupIndex, hp] at h
    | some pos =>
      simp [lookupIndex, hp] at h
      rcases h with ⟨idxs', h', rfl⟩
      simp [indexSegments, hp, ih idxs' h']

theorem lookupIndex_missing (segs v : List String) (s : String)
    (hs : s ∈ v) (hns : s ∉ segs) : lookupIndex segs v = none := by
  induction v with
  | nil => simp at hs
  | cons t rest ih =>
    rcases List.mem_cons.mp hs with rfl | hmem
    · simp [lookupIndex, (position_eq_none_iff s segs).mpr hns]
    · cases hp : position t segs with
      | none => simp [lookupIndex, hp]
      | some pos => simp [lookupIndex, hp, ih hmem]

theorem lookupIndex_position (segs v : List String) (idxs : List Nat)
    (h : lookupIndex segs v = some idxs) :
    ∀ i s, v.get? i = some s →
      ∃ k, idxs.get? i = some k ∧ position s segs = some k := by
  induction v generalizing idxs with
  | nil =>
    intro i s hi
    simp at hi
  | cons t rest ih =>
    intro i s hi
    cases hp : position t segs with
    | none => simp [lookupIndex, hp] at h
    | some pos =>
      simp [lookupIndex, hp] at h
      rcases h with ⟨idxs', h', rfl⟩
      cases i with
      | zero =>
        rw [List.get?_cons_zero] at hi
        injection hi with hi
        subst hi
        exact ⟨pos, rfl, hp⟩
      | succ j =>
        rw [List.get?_cons_succ] at hi
        rcases ih idxs' h' j s hi with ⟨k, hk, hpos⟩
        refine ⟨k, ?_, hpos⟩
        rw [List.get?_cons_succ]
        exact hk

/-! ### Kind-generic views of the store operations -/

theorem openAccount_segments (store : AccountStore) (acc : ParsedAccount)
    (d : Nat) :
    (store.openAccount acc d).segments = (indexSegments store.segments acc.segs).1 := by
  cases acc <;> rfl

theorem openAccount_kindMap (store : AccountStore) (acc : ParsedAccount)
    (d : Nat) :
    (store.openAccount acc d).kindMap acc =
      (store.kindMap acc).insert (indexSegments store.segments acc.segs).2
        ⟨d, none⟩ := by
  cases acc <;> rfl

/-- Kind-factored form of `txnify`: lookup, record fetch, validity window,
with the account-and-date error on every failure path. -/
def txnifyG (store : AccountStore) (date : Nat) (acc : ParsedAccount) :
    Except String TxnAccount :=
  match lookupIndex store.segments acc.segs with
  | none => .error (notOpenedMsg acc date)
  | some idxs =>
    match store.kindMap acc idxs with
    | none => .error (notOpenedMsg acc date)
    | some activity =>
      match activity.closed_at with
      | some cdate =>
        if activity.opened_at ≤ date ∧ date < cdate then .ok (acc.mkTxn idxs)
        else .error (notOpenedMsg acc date)
      | none =>
        if activity.opened_at ≤ date then .ok (acc.mkTxn idxs)
        else .error (notOpenedMsg acc date)

theorem valid_match (m : Option AccountActivities) (date : Nat)
    (t : TxnAccount) (msg : String) :
    (match (match m with
            | some activity =>
              match activity.closed_at with
              | some cdate =>
                if activity.opened_at ≤ date ∧ date < cdate then some t else none
              | none =>
                if activity.opened_at ≤ date then some t else none
            | none => none) with
     | some x => Except.ok x
     | none => Except.error msg) =
    (match m with
     | none => Except.error msg
     | some activity =>
       match activity.closed_at with
       | some cdate =>
         if activity.opened_at ≤ date ∧ date < cdate then Except.ok t
         else Except.error msg
       | none =>
         if activity.opened_at ≤ date then Except.ok t
         else Except.error msg) := by
  cases m with
  | none => rfl
  | some activity =>
    cases hc : activity.closed_at with
    | none =>
      by_cases h : activity.opened_at ≤ date <;> simp [hc, h]
    | some cdate =>
      by_cases h : activity.opened_at ≤ date ∧ date < cdate <;> simp [hc, h]

theorem txnify_eq_txnifyG (store : AccountStore) (date : Nat)
    (acc : ParsedAccount) :
    store.txnify date acc = txnifyG store date acc := by
  cases acc <;> (
    rename_i v
    cases hl : lookupIndex store.segments v with
    | none =>
      simp [AccountStore.txnify, txnifyG, ParsedAccount.segs, hl]
    | some idxs =>
      simp only [AccountStore.txnify, txnifyG, ParsedAccount.segs,
        AccountStore.kindMap, ParsedAccount.mkTxn,
        AccountStore.txn_account_valid_at, hl, Option.map_some, Option.bind]
      exact valid_match _ date _ _)

theorem close_spec (store : AccountStore) (acc : ParsedAccount) (date : Nat)
    (idxs : List Nat) (act : AccountActivities)
    (hok : store.txnify date acc = Except.ok (acc.mkTxn idxs))
    (hm : store.kindMap acc idxs = some act) :
    ∃ store', store.close acc date = Except.ok store' ∧
      store'.segments = store.segments ∧
      store'.kindMap acc =
        (store.kindMap acc).insert idxs { act with closed_at := some date } := by
  cases acc with
  | assets v =>
    simp only [AccountStore.kindMap] at hm
    refine ⟨{ store with assets :=
      store.assets.insert idxs { act with closed_at := some date } },
      ?_, rfl, rfl⟩
    simp [AccountStore.close, hok, ParsedAccount.mkTxn, closeAccount, hm, Except.map]
  | expenses v =>
    simp only [AccountStore.kindMap] at hm
    refine ⟨{ store with expenses :=
      store.expenses.insert idxs { act with closed_at := some date } },
      ?_, rfl, rfl⟩
    simp [AccountStore.close, hok, ParsedAccount.mkTxn, closeAccount, hm, Except.map]
  | liabilities v =>
    simp only [AccountStore.kindMap] at hm
    refine ⟨{ store with liabilities :=
      store.liabilities.insert idxs { act with closed_at := some date } },
      ?_, rfl, rfl⟩
    simp [AccountStore.close, hok, ParsedAccount.mkTxn, closeAccount, hm, Except.map]
  | income v =>
    simp only [AccountStore.kindMap] at hm
    refine ⟨{ store with income :=
      store.income.insert idxs { act with closed_at := some date } },
      ?_, rfl, rfl⟩
    simp [AccountStore.close, hok, ParsedAccount.mkTxn, closeAccount, hm, Except.map]
  | equity v =>
    simp only [AccountStore.kindMap] at hm
    refine ⟨{ store with equity :=
      store.equity.insert idxs { act with closed_at := some date } },
      ?_, rfl, rfl⟩
    simp [AccountStore.close, hok, ParsedAccount.mkTxn, closeAccount, hm, Except.map]

theorem txnifyG_error_shape (store : AccountStore) (date : Nat)
    (acc : ParsedAccount) :
    (∃ t, txnifyG store date acc = Except.ok t) ∨
      txnifyG store date acc = Except.error (notOpenedMsg acc date) := by
  unfold txnifyG
  split
  · right
    rfl
  · split
    · right
      rfl
    · split
      · split
        · left
          exact ⟨_, rfl⟩
        · right
          rfl
      · split
        · left
          exact ⟨_, rfl⟩
        · right
          rfl

theorem txnifyG_ok (store : AccountStore) (date : Nat) (acc : ParsedAccount)
    (t : TxnAccount) (ht : txnifyG store date acc = Except.ok t) :
    ∃ idxs act, lookupIndex store.segments acc.segs = some idxs ∧
      store.kindMap acc idxs = some act ∧ act.opened_at ≤ date ∧
      (act.closed_at = none ∨ ∃ c, act.closed_at = some c ∧ date < c) ∧
      t = acc.mkTxn idxs := by
  unfold txnifyG at ht
  cases hl : lookupIndex store.segments acc.segs with
  | none =>
    rw [hl] at ht
    simp at ht
  | some idxs =>
    rw [hl] at ht
    dsimp only at ht
    cases hm : store.kindMap acc idxs with
    | none =>
      rw [hm] at ht
      simp at ht
    | some act =>
      rw [hm] at ht
      dsimp only at ht
      cases hc : act.closed_at with
      | none =>
        rw [hc] at ht
        dsimp only at ht
        by_cases hod : act.opened_at ≤ date
        · rw [if_pos hod] at ht
          injection ht with h
          exact ⟨idxs, act, rfl, hm, hod, Or.inl hc, h.symm⟩
        · rw [if_neg hod] at ht
          simp at ht
      | some c =>
        rw [hc] at ht
        dsimp only at ht
        by_cases hw : act.opened_at ≤ date ∧ date < c
        · rw [if_pos hw] at ht
          injection ht with h
          exact ⟨idxs, act, rfl, hm, hw.1, Or.inr ⟨c, hc, hw.2⟩, h.symm⟩
        · rw [if_neg hw] at ht
          simp at ht

theorem txnifyG_ok_of (store : AccountStore) (date : Nat) (acc : ParsedAccount)
    (idxs : List Nat) (act : AccountActivities)
    (hl : lookupIndex store.segments acc.segs = some idxs)
    (hm : store.kindMap acc idxs = some act)
    (hod : act.opened_at ≤ date)
    (hcd : act.closed_at = none ∨ ∃ c, act.closed_at = some c ∧ date < c) :
    txnifyG store date acc = Except.ok (acc.mkTxn idxs) := by
  unfold txnifyG
  rw [hl]
  dsimp only
  rw [hm]
  dsimp only
  rcases hcd with hc | ⟨c, hc, hdc⟩
  · rw [hc]
    dsimp only
    exact if_pos hod
  · rw [hc]
    dsimp only
    exact if_pos ⟨hod, hdc⟩

/-- C2: `txnify` succeeds at a date exactly when every segment resolves and
the stored record's window contains the date; all failures produce the
account-and-date error, and missing segments (never inserted by this pure
lookup) fail the same way. -/
theorem C2_txnify_validity (store : AccountStore) (date : Nat)
    (acc : ParsedAccount) :
    ((∃ t, store.txnify date acc = Except.ok t) ↔
      ∃ idxs act, lookupIndex store.segments acc.segs = some idxs ∧
        store.kindMap acc idxs = some act ∧ act.opened_at ≤ date ∧
        (act.closed_at = none ∨ ∃ c, act.closed_at = some c ∧ date < c)) ∧
    (∀ t, store.txnify date acc = Except.ok t →
      ∃ idxs, lookupIndex store.segments acc.segs = some idxs ∧
        t = acc.mkTxn idxs) ∧
    ((¬ ∃ t, store.txnify date acc = Except.ok t) →
      store.txnify date acc = Except.error (notOpenedMsg acc date)) ∧
    (∀ s ∈ acc.segs, s ∉ store.segments →
      store.txnify date acc = Except.error (notOpenedMsg acc date)) := by
  rw [txnify_eq_txnifyG]
  refine ⟨⟨?_, ?_⟩, ?_, ?_, ?_⟩
  · rintro ⟨t, ht⟩
    rcases txnifyG_ok store date acc t ht with
      ⟨idxs, act, hl, hm, hod, hcd, _⟩
    exact ⟨idxs, act, hl, hm, hod, hcd⟩
  · rintro ⟨idxs, act, hl, hm, hod, hcd⟩
    exact ⟨acc.mkTxn idxs, txnifyG_ok_of store date acc idxs act hl hm hod hcd⟩
  · intro t ht
    rcases txnifyG_ok store date acc t ht with
      ⟨idxs, act, hl, _, _, _, hmk⟩
    exact ⟨idxs, hl, hmk⟩
  · intro hne
    exact (txnifyG_error_shape store date acc).resolve_left hne
  · intro s hs hns
    unfold txnifyG
    rw [lookupIndex_missing store.segments acc.segs s hs hns]

/-- Witness for C2: a concrete store (Expenses:Dining opened 2021-10-28);
resolving at 2021-10-25 fails with the dated error, resolving at 2021-10-28
succeeds, all as instances of the characterization. -/
theorem C2_txnify_validity_witness :
    (((∃ t, ((AccountStore.new.openAccount
          (.expenses ["Dining"]) 20211028).txnify 20211025
          (.expenses ["Dining"])) = Except.ok t) ↔
      ∃ idxs act,
        lookupIndex (AccountStore.new.openAccount
          (.expenses ["Dining"]) 20211028).segments
          (ParsedAccount.expenses ["Dining"]).segs = some idxs ∧
        (AccountStore.new.openAccount
          (.expenses ["Dining"]) 20211028).kindMap
          (.expenses ["Dining"]) idxs = some act ∧
        act.opened_at ≤ 20211025 ∧
        (act.closed_at = none ∨
          ∃ c, act.closed_at = some c ∧ 20211025 < c))) ∧
    ((AccountStore.new.openAccount (.expenses ["Dining"]) 20211028).txnify
        20211025 (.expenses ["Dining"])
      = Except.error (notOpenedMsg (.expenses ["Dining"]) 20211025)) ∧
    ((AccountStore.new.openAccount (.expenses ["Dining"]) 20211028).txnify
        20211028 (.expenses ["Dining"])
      = Except.ok (.expenses [0])) := by
  refine ⟨(C2_txnify_validity _ 20211025 _).1, ?_, ?_⟩
  · refine (C2_txnify_validity _ 20211025 _).2.2.1 ?_
    rw [(C2_txnify_validity _ 20211025 _).1]
    rintro ⟨idxs, act, hl, hm, hod, -⟩
    have hl0 : idxs = [0] := by
      have : lookupIndex (AccountStore.new.openAccount
          (.expenses ["Dining"]) 20211028).segments
          (ParsedAccount.expenses ["Dining"]).segs = some [0] := by rfl
      rw [this] at hl
      injection hl with h
      exact h.symm
    subst hl0
    have : (AccountStore.new.openAccount
        (.expenses ["Dining"]) 20211028).kindMap
        (.expenses ["Dining"]) [0] = some ⟨20211028, none⟩ := by rfl
    rw [this] at hm
    injection hm with h
    rw [← h] at hod
    exact absurd hod (by decide)
  · rfl

theorem txnify_ok_of (store : AccountStore) (date : Nat) (acc : ParsedAccount)
    (idxs : List Nat) (act : AccountActivities)
    (hl : lookupIndex store.segments acc.segs = some idxs)
    (hm : store.kindMap acc idxs = some act)
    (hod : act.opened_at ≤ date)
    (hcd : act.closed_at = none ∨ ∃ c, act.closed_at = some c ∧ date < c) :
    store.txnify date acc = Except.ok (acc.mkTxn idxs) := by
  rw [txnify_eq_txnifyG]
  exact txnifyG_ok_of store date acc idxs act hl hm hod hcd

theorem txnify_error_char (store : AccountStore) (date : Nat)
    (acc : ParsedAccount)
    (h : ∀ idxs act, lookupIndex store.segments acc.segs = some idxs →
      store.kindMap acc idxs = some act →
      ¬(act.opened_at ≤ date ∧
        (act.closed_at = none ∨ ∃ c, act.closed_at = some c ∧ date < c))) :
    store.txnify date acc = Except.error (notOpenedMsg acc date) := by
  rw [txnify_eq_txnifyG]
  rcases txnifyG_error_shape store date acc with ⟨t, ht⟩ | he
  · rcases txnifyG_ok store date acc t ht with ⟨idxs, act, hl, hm, hod, hcd, -⟩
    exact absurd ⟨hod, hcd⟩ (h idxs act hl hm)
  · exact he

/-- The open / close / reopen pipeline: the close succeeds and the reopened
record is `{ opened_at := d4, closed_at := none }` at the stable key. -/
theorem reopen_chain (store : AccountStore) (acc : ParsedAccount)
    (d1 d3 d4 : Nat) (h13 : d1 ≤ d3) :
    ∃ st2 idxs,
      (store.openAccount acc d1).close acc d3 = Except.ok st2 ∧
      lookupIndex (st2.openAccount acc d4).segments acc.segs = some idxs ∧
      (st2.openAccount acc d4).kindMap acc idxs = some ⟨d4, none⟩ := by
  have hseg1 := openAccount_segments store acc d1
  have hkm1 := openAccount_kindMap store acc d1
  have hl1 : lookupIndex (store.openAccount acc d1).segments acc.segs
      = some (indexSegments store.segments acc.segs).2 := by
    rw [hseg1]
    exact indexSegments_lookup acc.segs store.segments
  have hm1 : (store.openAccount acc d1).kindMap acc
      (indexSegments store.segments acc.segs).2 = some ⟨d1, none⟩ := by
    rw [hkm1]
    simp [ActivityMap.insert]
  have hok : (store.openAccount acc d1).txnify d3 acc
      = Except.ok (acc.mkTxn (indexSegments store.segments acc.segs).2) :=
    txnify_ok_of _ _ _ _ _ hl1 hm1 h13 (Or.inl rfl)
  obtain ⟨st2, hclose, hseg2, hkm2⟩ :=
    close_spec (store.openAccount acc d1) acc d3 _ _ hok hm1
  have hl2 : lookupIndex st2.segments acc.segs
      = some (indexSegments store.segments acc.segs).2 := by
    rw [hseg2]
    exact hl1
  have his : indexSegments st2.segments acc.segs
      = (st2.segments, (indexSegments store.segments acc.segs).2) :=
    indexSegments_of_lookup _ _ _ hl2
  have hseg3 := openAccount_segments st2 acc d4
  have hkm3 := openAccount_kindMap st2 acc d4
  refine ⟨st2, (indexSegments store.segments acc.segs).2, hclose, ?_, ?_⟩
  · rw [hseg3, his]
    exact hl2
  · rw [hkm3, his]
    simp [ActivityMap.insert]

/-- C6: open at `d1`, close at `d3`, reopen at `d4` (with `d1 < d3 < d4`):
resolving strictly between `d3` and `d4` fails with the dated error, and
resolving at or after `d4` succeeds; the fresh window has no close date. -/
theorem C6_reopen_semantics (store : AccountStore) (acc : ParsedAccount)
    (d1 d3 d4 : Nat) (h13 : d1 < d3) (h34 : d3 < d4) :
    ∃ st2 idxs,
      (store.openAccount acc d1).close acc d3 = Except.ok st2 ∧
      (st2.openAccount acc d4).kindMap acc idxs = some ⟨d4, none⟩ ∧
      ∀ q,
        (d3 < q → q < d4 →
          (st2.openAccount acc d4).txnify q acc
            = Except.error (notOpenedMsg acc q)) ∧
        (d4 ≤ q →
          (st2.openAccount acc d4).txnify q acc
            = Except.ok (acc.mkTxn idxs)) := by
  obtain ⟨st2, idxs, hclose, hl3, hm3⟩ :=
    reopen_chain store acc d1 d3 d4 (le_of_lt h13)
  refine ⟨st2, idxs, hclose, hm3, ?_⟩
  intro q
  constructor
  · intro _ hq4
    apply txnify_error_char
    intro idxs' act hl' hm'
    rw [hl3] at hl'
    injection hl' with h'
    subst h'
    rw [hm3] at hm'
    injection hm' with h''
    rintro ⟨hod, -⟩
    rw [← h''] at hod
    simp at hod
    omega
  · intro hq4
    exact txnify_ok_of _ _ _ _ _ hl3 hm3 hq4 (Or.inl rfl)

/-- Witness for C6: the `Assets:Bank:Jawir` scenario at concrete dates. -/
theorem C6_reopen_semantics_witness :
    ∃ st2 idxs,
      (AccountStore.new.openAccount (.assets ["Bank", "Jawir"])
          20211001).close (.assets ["Bank", "Jawir"]) 20211003
        = Except.ok st2 ∧
      (st2.openAccount (.assets ["Bank", "Jawir"]) 20211005).kindMap
          (.assets ["Bank", "Jawir"]) idxs = some ⟨20211005, none⟩ ∧
      ∀ q,
        (20211003 < q → q < 20211005 →
          (st2.openAccount (.assets ["Bank", "Jawir"]) 20211005).txnify q
              (.assets ["Bank", "Jawir"])
            = Except.error (notOpenedMsg (.assets ["Bank", "Jawir"]) q)) ∧
        (20211005 ≤ q →
          (st2.openAccount (.assets ["Bank", "Jawir"]) 20211005).txnify q
              (.assets ["Bank", "Jawir"])
            = Except.ok ((ParsedAccount.assets ["Bank", "Jawir"]).mkTxn idxs)) :=
  C6_reopen_semantics AccountStore.new (.assets ["Bank", "Jawir"])
    20211001 20211003 20211005 (by decide) (by decide)

/-- C10: `open` installs `{ opened_at := d, closed_at := none }` at the key,
replacing whatever record was there; consequently, after a reopen, dates that
lay in the earlier window but before the new `opened_at` no longer resolve. -/
theorem C10_open_replaces_record (store : AccountStore) (acc : ParsedAccount)
    (d1 d3 d4 : Nat) (h13 : d1 < d3) (h34 : d3 < d4) :
    (∀ (st : AccountStore) (d : Nat),
      (st.openAccount acc d).kindMap acc
        (indexSegments st.segments acc.segs).2 = some ⟨d, none⟩) ∧
    ∃ st2,
      (store.openAccount acc d1).close acc d3 = Except.ok st2 ∧
      ∀ q, d1 ≤ q → q < d3 →
        (st2.openAccount acc d4).txnify q acc
          = Except.error (notOpenedMsg acc q) := by
  constructor
  · intro st d
    rw [openAccount_kindMap]
    simp [ActivityMap.insert]
  · obtain ⟨st2, idxs, hclose, hl3, hm3⟩ :=
      reopen_chain store acc d1 d3 d4 (le_of_lt h13)
    refine ⟨st2, hclose, ?_⟩
    intro q _ hq3
    apply txnify_error_char
    intro idxs' act hl' hm'
    rw [hl3] at hl'
    injection hl' with h'
    subst h'
    rw [hm3] at hm'
    injection hm' with h''
    rintro ⟨hod, -⟩
    rw [← h''] at hod
    simp at hod
    omega

/-- Witness for C10: the same scenario at concrete dates, queried inside the
old window. -/
theorem C10_open_replaces_record_witness :
    (∀ (st : AccountStore) (d : Nat),
      (st.openAccount (.assets ["Bank", "Jawir"]) d).kindMap
          (.assets ["Bank", "Jawir"])
          (indexSegments st.segments
            (ParsedAccount.assets ["Bank", "Jawir"]).segs).2
        = some ⟨d, none⟩) ∧
    ∃ st2,
      (AccountStore.new.openAccount (.assets ["Bank", "Jawir"])
          20211001).close (.assets ["Bank", "Jawir"]) 20211003
        = Except.ok st2 ∧
      ∀ q, 20211001 ≤ q → q < 20211003 →
        (st2.openAccount (.assets ["Bank", "Jawir"]) 20211005).txnify q
            (.assets ["Bank", "Jawir"])
          = Except.error (notOpenedMsg (.assets ["Bank", "Jawir"]) q) :=
  C10_open_replaces_record AccountStore.new (.assets ["Bank", "Jawir"])
    20211001 20211003 20211005 (by decide) (by decide)

theorem lookup_pairwise (segs v w : List String) (is js : List Nat)
    (hv : lookupIndex segs v = some is) (hw : lookupIndex segs w = some js) :
    ∀ i j si sj ii jj, v.get? i = some si → w.get? j = some sj →
      is.get? i = some ii → js.get? j = some jj → (si = sj ↔ ii = jj) := by
  intro i j si sj ii jj hvi hwj hii hjj
  rcases lookupIndex_position segs v is hv i si hvi with ⟨k, hk, hpos⟩
  rcases lookupIndex_position segs w js hw j sj hwj with ⟨k', hk', hpos'⟩
  rw [hii] at hk
  injection hk with hk
  rw [hjj] at hk'
  injection hk' with hk'
  subst hk
  subst hk'
  constructor
  · intro hss
    subst hss
    rw [hpos] at hpos'
    injection hpos'
  · intro hkk
    subst hkk
    have h1 := position_get si segs ii hpos
    have h2 := position_get sj segs ii hpos'
    rw [h1] at h2
    injection h2

/-- C8: segment interning is shared across kinds and idempotent — after two
opens (of any kinds), both paths resolve to index vectors in the common
segment table; the first account's indices are unchanged by the second open;
equal segment strings get equal indices and distinct strings get distinct
indices, within and across the two accounts. The concrete conjuncts check the
`Assets:Bank:Jawir` / `Liabilities:Bank:CreditCard` example. -/
theorem C8_shared_interning :
    (∀ (store : AccountStore) (acc1 acc2 : ParsedAccount) (d1 d2 : Nat),
      ∃ is1 is2,
        lookupIndex ((store.openAccount acc1 d1).openAccount acc2 d2).segments
          acc1.segs = some is1 ∧
        lookupIndex ((store.openAccount acc1 d1).openAccount acc2 d2).segments
          acc2.segs = some is2 ∧
        lookupIndex (store.openAccount acc1 d1).segments acc1.segs
          = some is1 ∧
        (∀ i j si sj ii jj,
          acc1.segs.get? i = some si → acc2.segs.get? j = some sj →
          is1.get? i = some ii → is2.get? j = some jj →
          (si = sj ↔ ii = jj)) ∧
        (∀ i j si sj ii jj,
          acc1.segs.get? i = some si → acc1.segs.get? j = some sj →
          is1.get? i = some ii → is1.get? j = some jj →
          (si = sj ↔ ii = jj)) ∧
        (∀ i j si sj ii jj,
          acc2.segs.get? i = some si → acc2.segs.get? j = some sj →
          is2.get? i = some ii → is2.get? j = some jj →
          (si = sj ↔ ii = jj))) ∧
    ((AccountStore.new.openAccount (.assets ["Bank", "Jawir"])
        1).openAccount (.liabilities ["Bank", "CreditCard"]) 2).segments
      = ["Bank", "Jawir", "CreditCard"] ∧
    lookupIndex ["Bank", "Jawir", "CreditCard"] ["Bank", "Jawir"]
      = some [0, 1] ∧
    lookupIndex ["Bank", "Jawir", "CreditCard"] ["Bank", "CreditCard"]
      = some [0, 2] := by
  refine ⟨?_, by rfl, by rfl, by rfl⟩
  intro store acc1 acc2 d1 d2
  have hseg1 := openAccount_segments store acc1 d1
  have hl1 : lookupIndex (store.openAccount acc1 d1).segments acc1.segs
      = some (indexSegments store.segments acc1.segs).2 := by
    rw [hseg1]
    exact indexSegments_lookup acc1.segs store.segments
  have hseg2 := openAccount_segments (store.openAccount acc1 d1) acc2 d2
  obtain ⟨ext, hext⟩ :=
    indexSegments_prefix acc2.segs (store.openAccount acc1 d1).segments
  have hl1' : lookupIndex
      ((store.openAccount acc1 d1).openAccount acc2 d2).segments acc1.segs
      = some (indexSegments store.segments acc1.segs).2 := by
    rw [hseg2, hext]
    exact lookupIndex_append _ ext _ _ hl1
  have hl2 : lookupIndex
      ((store.openAccount acc1 d1).openAccount acc2 d2).segments acc2.segs
      = some (indexSegments (store.openAccount acc1 d1).segments acc2.segs).2 := by
    rw [hseg2]
    exact indexSegments_lookup acc2.segs (store.openAccount acc1 d1).segments
  refine ⟨_, _, hl1', hl2, hl1,
    lookup_pairwise _ _ _ _ _ hl1' hl2,
    lookup_pairwise _ _ _ _ _ hl1' hl1',
    lookup_pairwise _ _ _ _ _ hl2 hl2⟩

/-- Witness for C8: the general interning property instantiated on the
shared-prefix example. -/
theorem C8_shared_interning_witness :
    ∃ is1 is2,
      lookupIndex ((AccountStore.new.openAccount (.assets ["Bank", "Jawir"])
          1).openAccount (.liabilities ["Bank", "CreditCard"]) 2).segments
        (ParsedAccount.assets ["Bank", "Jawir"]).segs = some is1 ∧
      lookupIndex ((AccountStore.new.openAccount (.assets ["Bank", "Jawir"])
          1).openAccount (.liabilities ["Bank", "CreditCard"]) 2).segments
        (ParsedAccount.liabilities ["Bank", "CreditCard"]).segs = some is2 ∧
      lookupIndex (AccountStore.new.openAccount (.assets ["Bank", "Jawir"])
          1).segments (ParsedAccount.assets ["Bank", "Jawir"]).segs
        = some is1 ∧
      (∀ i j si sj ii jj,
        (ParsedAccount.assets ["Bank", "Jawir"]).segs.get? i = some si →
        (ParsedAccount.liabilities ["Bank", "CreditCard"]).segs.get? j
          = some sj →
        is1.get? i = some ii → is2.get? j = some jj →
        (si = sj ↔ ii = jj)) ∧
      (∀ i j si sj ii jj,
        (ParsedAccount.assets ["Bank", "Jawir"]).segs.get? i = some si →
        (ParsedAccount.assets ["Bank", "Jawir"]).segs.get? j = some sj →
        is1.get? i = some ii → is1.get? j = some jj →
        (si = sj ↔ ii = jj)) ∧
      (∀ i j si sj ii jj,
        (ParsedAccount.liabilities ["Bank", "CreditCard"]).segs.get? i
          = some si →
        (ParsedAccount.liabilities ["Bank", "CreditCard"]).segs.get? j
          = some sj →
        is2.get? i = some ii → is2.get? j = some jj →
        (si = sj ↔ ii = jj)) :=
  C8_shared_interning.1 AccountStore.new (.assets ["Bank", "Jawir"])
    (.liabilities ["Bank", "CreditCard"]) 1 2

/-! ## transaction.rs -/

/-- Result type with Rust panics (out-of-range indexing, `unwrap` of `None`)
made explicit. -/
inductive PResult (α : Type) where
  | ok (val : α) : PResult α
  | error (msg : String) : PResult α
  | panic : PResult α
deriving DecidableEq, Repr

/-- Embeds `TransactionState` (transaction.rs lines 100-107). -/
inductive TransactionState where
  | settled
  | unsettled
  | recurring
  | virtual
deriving DecidableEq, Repr

/-- Embeds `TxnHeader` (transaction.rs lines 12-17), with the payee and title
already owned strings. -/
structure TxnHeader where
  state : TransactionState
  payee : Option String
  title : String
deriving DecidableEq, Repr

/-- Embeds `Exchange` (transaction.rs lines 109-114). -/
structure Exchange where
  account : TxnAccount
  amount : TxnAmount
  amount_elided : Bool
deriving DecidableEq, Repr

/-- Embeds `Transaction` (transaction.rs lines 116-122). -/
structure Transaction where
  state : TransactionState
  payee : Option String
  title : String
  exchanges : List Exchange
deriving DecidableEq, Repr

/-- Embeds `Check` (transaction.rs lines 124-127). -/
inductive Check where
  | withSum
  | withoutSum
deriving DecidableEq, Repr

/-- Embeds `TxnError` (transaction.rs lines 129-134); the `anyhow::Error`
payload of `Other` is its message. -/
inductive TxnError where
  | unbalanced
  | notZeroSum
  | other (msg : String)
deriving DecidableEq, Repr

/-- Embeds `ParsedPrice` (amount.rs lines 7-11). -/
structure ParsedPrice where
  nominal : Rat
  currency : String
deriving DecidableEq, Repr

/-- Embeds `ParsedAmount` (amount.rs lines 30-35). -/
structure ParsedAmount where
  nominal : Rat
  currency : String
  price : Option ParsedPrice
deriving DecidableEq, Repr

/-- Embeds `ParsedTransaction` (transaction.rs lines 62-66). -/
structure ParsedTransaction where
  accounts : List ParsedAccount
  exchanges : List (Option ParsedAmount)
deriving DecidableEq, Repr

/-- The elided-count validation closing `ParsedTransaction::parse`
(transaction.rs lines 87-96): the token loop that builds the lists belongs to
the grammar engine (out of scope here); on the built value the check rejects
more than one elided amount and otherwise returns the value unchanged. -/
def ParsedTransaction.validate (t : ParsedTransaction) :
    Except String ParsedTransaction :=
  if 1 < (t.exchanges.filter (fun item => item.isNone)).length then
    .error "only 1 account can has its amount elided"
  else
    .ok t

/-- The `for (x, account) in accounts.iter().enumerate()` loop of
`Transaction::from_parser` (transaction.rs lines 150-170); `amounts[x]` is a
panicking index access. -/
def fromParserLoop (amounts : List (Option TxnAmount)) :
    List TxnAccount → Nat → List Exchange → Option Nat → Option TxnAmount →
      PResult (List Exchange × Option Nat × Option TxnAmount)
  | [], _, exchanges, elided_position, total =>
    .ok (exchanges, elided_position, total)
  | account :: rest, x, exchanges, elided_position, total =>
    match amounts.get? x with
    | none => .panic
    | some none =>
      fromParserLoop amounts rest (x + 1) exchanges (some x) total
    | some (some amt) =>
      fromParserLoop amounts rest (x + 1)
        (exchanges ++ [⟨account, amt, false⟩]) elided_position
        (some (match total with
               | none => amt
               | some v => v.add amt))

/-- Embeds `Transaction::from_parser` (transaction.rs lines 137-189), with the
panicking accesses (`amounts[x]`, `accounts[pos]`, `exchanges[0]`,
`total.as_ref().unwrap()`, `Vec::insert` past the end) surfaced as
`PResult.panic`. -/
def Transaction.fromParser (header : TxnHeader) (accounts : List TxnAccount)
    (amounts : List (Option TxnAmount)) : PResult Transaction :=
  if 1 < (amounts.filter (fun a => a.isNone)).length then
    .error "only 1 account can has its amount elided"
  else
    match fromParserLoop amounts accounts 0 [] none none with
    | .panic => .panic
    | .error e => .error e
    | .ok (exchanges, elided_position, total) =>
      match elided_position with
      | none => .ok ⟨header.state, header.payee, header.title, exchanges⟩
      | some pos =>
        match accounts.get? pos, exchanges.get? 0, total with
        | some acct, some e0, some tot =>
          if pos ≤ exchanges.length then
            .ok ⟨header.state, header.payee, header.title,
                 exchanges.take pos ++
                   ⟨acct, (TxnAmount.zero e0.amount.currency).sub tot, true⟩ ::
                     exchanges.drop pos⟩
          else
            .panic
        | _, _, _ => .panic

/-- Embeds `Transaction::sum` (transaction.rs lines 216-235): the anchor is
the first non-elided exchange's currency, and every exchange (elided
included) is folded in with `add`. -/
def Transaction.sum (t : Transaction) : Except String TxnAmount :=
  match t.exchanges.find? (fun item => !item.amount_elided) with
  | none => .error "no valid transaction can be used for currency candidate"
  | some item =>
    .ok (t.exchanges.foldl (fun acc it => acc.add it.amount)
      ⟨0, item.amount.currency, []⟩)

/-- Embeds `Transaction::errors` (transaction.rs lines 191-214). -/
def Transaction.errors (t : Transaction) (check : Check) : Option TxnError :=
  if t.exchanges.length ≤ 1 then
    some .unbalanced
  else
    match check with
    | .withSum =>
      match t.sum with
      | .ok v => if !v.is_zero then some .notZeroSum else none
      | .error e => some (.other e)
    | .withoutSum => none

/-! ### Loop characterization for `from_parser` -/

/-- Pure view of the `from_parser` loop over the zipped (account, amount)
pairs: when the index stays in range the loop is this total function. -/
def loopPure : List (TxnAccount × Option TxnAmount) → Nat →
    List Exchange × Option Nat × Option TxnAmount →
      List Exchange × Option Nat × Option TxnAmount
  | [], _, st => st
  | (_, none) :: rest, x, (ex, _, total) =>
    loopPure rest (x + 1) (ex, some x, total)
  | (a, some amt) :: rest, x, (ex, eli, total) =>
    loopPure rest (x + 1)
      (ex ++ [⟨a, amt, false⟩], eli,
        some (match total with
              | none => amt
              | some v => v.add amt))

/-- The non-elided exchanges the loop pushes, in order. -/
def explicitOf (pairs : List (TxnAccount × Option TxnAmount)) : List Exchange :=
  pairs.filterMap (fun pr => pr.2.map (fun amt => ⟨pr.1, amt, false⟩))

/-- The running total: first amount taken as is, later ones added with
`add`. -/
def addTotal (tot : Option TxnAmount) (l : List TxnAmount) : Option TxnAmount :=
  l.foldl (fun acc a =>
    some (match acc with
          | none => a
          | some v => v.add a)) tot

theorem fromParserLoop_eq_loopPure (accs : List TxnAccount)
    (tail pre : List (Option TxnAmount)) (ex : List Exchange)
    (eli : Option Nat) (tot : Option TxnAmount)
    (h : accs.length = tail.length) :
    fromParserLoop (pre ++ tail) accs pre.length ex eli tot =
      .ok (loopPure (accs.zip tail) pre.length (ex, eli, tot)) := by
  induction accs generalizing tail pre ex eli tot with
  | nil =>
    have htail : tail = [] := by
      cases tail with
      | nil => rfl
      | cons b tb => simp at h
    subst htail
    simp [fromParserLoop, loopPure]
  | cons a rest ih =>
    cases tail with
    | nil => simp at h
    | cons b tb =>
      have hlen : rest.length = tb.length := by
        simpa using h
      have hget : (pre ++ b :: tb).get? pre.length = some b := by
        rw [List.get?_append_right (le_refl pre.length)]
        simp
      have happ : pre ++ b :: tb = (pre ++ [b]) ++ tb := by
        simp
      have hplen : pre.length + 1 = (pre ++ [b]).length := by
        simp
      cases b with
      | none =>
        rw [List.zip_cons_cons]
        show (match (pre ++ none :: tb).get? pre.length with
              | none => PResult.panic
              | some none =>
                fromParserLoop (pre ++ none :: tb) rest (pre.length + 1)
                  ex (some pre.length) tot
              | some (some amt) =>
                fromParserLoop (pre ++ none :: tb) rest (pre.length + 1)
                  (ex ++ [Exchange.mk a amt false]) eli
                  (some (match tot with
                         | none => amt
                         | some v => v.add amt))) = _
        rw [hget]
        dsimp only
        rw [happ, hplen]
        rw [ih tb (pre ++ [none]) ex (some pre.length) tot hlen]
        simp [loopPure]
      | some amt =>
        rw [List.zip_cons_cons]
        show (match (pre ++ some amt :: tb).get? pre.length with
              | none => PResult.panic
              | some none =>
                fromParserLoop (pre ++ some amt :: tb) rest (pre.length + 1)
                  ex (some pre.length) tot
              | some (some amt') =>
                fromParserLoop (pre ++ some amt :: tb) rest (pre.length + 1)
                  (ex ++ [Exchange.mk a amt' false]) eli
                  (some (match tot with
                         | none => amt'
                         | some v => v.add amt'))) = _
        rw [hget]
        dsimp only
        rw [happ, hplen]
        rw [ih tb (pre ++ [some amt]) _ eli _ hlen]
        simp [loopPure]

theorem loopPure_exchanges (pairs : List (TxnAccount × Option TxnAmount))
    (x : Nat) (ex : List Exchange) (eli : Option Nat) (tot : Option TxnAmount) :
    (loopPure pairs x (ex, eli, tot)).1 = ex ++ explicitOf pairs := by
  induction pairs generalizing x ex eli tot with
  | nil => simp [loopPure, explicitOf]
  | cons pr rest ih =>
    obtain ⟨a, o⟩ := pr
    cases o with
    | none => simp [loopPure, explicitOf, ih]
    | some amt => simp [loopPure, explicitOf, ih]

theorem loopPure_total (pairs : List (TxnAccount × Option TxnAmount))
    (x : Nat) (ex : List Exchange) (eli : Option Nat) (tot : Option TxnAmount) :
    (loopPure pairs x (ex, eli, tot)).2.2
      = addTotal tot (pairs.filterMap Prod.snd) := by
  induction pairs generalizing x ex eli tot with
  | nil => simp [loopPure, addTotal]
  | cons pr rest ih =>
    obtain ⟨a, o⟩ := pr
    cases o with
    | none => simp [loopPure, addTotal, ih]
    | some amt => simp [loopPure, addTotal, ih]

theorem loopPure_elided_none (pairs : List (TxnAccount × Option TxnAmount))
    (x : Nat) (ex : List Exchange) (eli : Option Nat) (tot : Option TxnAmount)
    (h : ∀ pr ∈ pairs, pr.2 ≠ none) :
    (loopPure pairs x (ex, eli, tot)).2.1 = eli := by
  induction pairs generalizing x ex eli tot with
  | nil => rfl
  | cons pr rest ih =>
    obtain ⟨a, o⟩ := pr
    cases o with
    | none => exact absurd rfl (h (a, none) (by simp))
    | some amt =>
      show (loopPure rest (x + 1)
        (ex ++ [Exchange.mk a amt false], eli,
          some (match tot with
                | none => amt
                | some v => v.add amt))).2.1 = eli
      exact ih (x + 1) _ eli _ (fun pr hpr => h pr (by simp [hpr]))

theorem loopPure_append (p1 p2 : List (TxnAccount × Option TxnAmount))
    (x : Nat) (st : List Exchange × Option Nat × Option TxnAmount) :
    loopPure (p1 ++ p2) x st = loopPure p2 (x + p1.length) (loopPure p1 x st) := by
  induction p1 generalizing x st with
  | nil => simp [loopPure]
  | cons pr rest ih =>
    obtain ⟨a, o⟩ := pr
    obtain ⟨ex, eli, tot⟩ := st
    cases o with
    | none =>
      rw [List.cons_append]
      simp only [loopPure]
      rw [ih]
      congr 1
      simp only [List.length_cons]
      omega
    | some amt =>
      rw [List.cons_append]
      simp only [loopPure]
      rw [ih]
      congr 1
      simp only [List.length_cons]
      omega

theorem addTotal_some (v : TxnAmount) (l : List TxnAmount) :
    addTotal (some v) l = some (l.foldl TxnAmount.add v) := by
  induction l generalizing v with
  | nil => rfl
  | cons a rest ih =>
    show addTotal (some (v.add a)) rest = _
    rw [ih]
    rfl

theorem addTotal_append (tot : Option TxnAmount) (l1 l2 : List TxnAmount) :
    addTotal tot (l1 ++ l2) = addTotal (addTotal tot l1) l2 := by
  simp [addTotal, List.foldl_append]

theorem zip_filterMap_snd (accs : List TxnAccount)
    (amts : List (Option TxnAmount)) (h : accs.length = amts.length) :
    (accs.zip amts).filterMap Prod.snd = amts.filterMap id := by
  induction accs generalizing amts with
  | nil =>
    cases amts with
    | nil => rfl
    | cons b tb => simp at h
  | cons a rest ih =>
    cases amts with
    | nil => simp at h
    | cons b tb =>
      have hlen : rest.length = tb.length := by simpa using h
      cases b <;> simp [List.zip_cons_cons, List.filterMap_cons, ih tb hlen]

theorem explicitOf_map_amount (accs : List TxnAccount)
    (amts : List (Option TxnAmount)) (h : accs.length = amts.length) :
    (explicitOf (accs.zip amts)).map (fun e => e.amount) = amts.filterMap id := by
  induction accs generalizing amts with
  | nil =>
    cases amts with
    | nil => rfl
    | cons b tb => simp at h
  | cons a rest ih =>
    cases amts with
    | nil => simp at h
    | cons b tb =>
      have hlen : rest.length = tb.length := by simpa using h
      cases b <;>
        simp [List.zip_cons_cons, explicitOf, List.filterMap_cons, ih tb hlen] <;>
        simpa [explicitOf] using ih tb hlen

theorem explicitOf_not_elided (pairs : List (TxnAccount × Option TxnAmount)) :
    ∀ e ∈ explicitOf pairs, e.amount_elided = false := by
  intro e he
  rcases List.mem_filterMap.mp he with ⟨pr, _, hpr⟩
  cases hp : pr.2 with
  | none => rw [hp] at hpr; simp at hpr
  | some amt =>
    rw [hp] at hpr
    simp at hpr
    rw [← hpr]

theorem filterMap_id_length (l : List (Option TxnAmount))
    (h : ∀ o ∈ l, o ≠ none) : (l.filterMap id).length = l.length := by
  induction l with
  | nil => rfl
  | cons o rest ih =>
    cases o with
    | none => exact absurd rfl (h none (by simp))
    | some a =>
      simp only [List.filterMap_cons, id_eq, List.length_cons]
      rw [ih (fun o ho => h o (by simp [ho]))]

theorem filter_isNone_nil (l : List (Option TxnAmount))
    (h : ∀ o ∈ l, o ≠ none) : l.filter (fun a => a.isNone) = [] := by
  rw [List.filter_eq_nil_iff]
  intro o ho
  cases o with
  | none => exact absurd rfl (h none ho)
  | some a => simp

theorem fromParserLoop_ne_error (amounts : List (Option TxnAmount))
    (accs : List TxnAccount) (x : Nat) (ex : List Exchange) (eli : Option Nat)
    (tot : Option TxnAmount) (e : String) :
    fromParserLoop amounts accs x ex eli tot ≠ .error e := by
  induction accs generalizing x ex eli tot with
  | nil => simp [fromParserLoop]
  | cons a rest ih =>
    show (match amounts.get? x with
          | none => PResult.panic
          | some none => fromParserLoop amounts rest (x + 1) ex (some x) tot
          | some (some amt) =>
            fromParserLoop amounts rest (x + 1)
              (ex ++ [Exchange.mk a amt false]) eli
              (some (match tot with
                     | none => amt
                     | some v => v.add amt))) ≠ PResult.error e
    cases amounts.get? x with
    | none => simp
    | some b =>
      cases b with
      | none => exact ih (x + 1) ex (some x) tot
      | some amt => exact ih (x + 1) _ eli _

/-- Master lemma, no elided position: `from_parser` on equal-length lists
without a `None` amount succeeds with exactly the explicit exchanges. -/
theorem fromParser_no_elided (header : TxnHeader) (accs : List TxnAccount)
    (amts : List (Option TxnAmount)) (hlen : accs.length = amts.length)
    (h : ∀ o ∈ amts, o ≠ none) :
    Transaction.fromParser header accs amts =
      .ok ⟨header.state, header.payee, header.title,
        explicitOf (accs.zip amts)⟩ := by
  have hcount : ¬ 1 < (amts.filter (fun a => a.isNone)).length := by
    rw [filter_isNone_nil amts h]
    simp
  have hloop := fromParserLoop_eq_loopPure accs amts [] [] none none hlen
  simp only [List.nil_append, List.length_nil] at hloop
  have heli : (loopPure (accs.zip amts) 0 ([], none, none)).2.1 = none := by
    apply loopPure_elided_none
    intro pr hpr
    obtain ⟨pa, po⟩ := pr
    exact h po (List.of_mem_zip hpr).2
  have hex : (loopPure (accs.zip amts) 0 ([], none, none)).1
      = explicitOf (accs.zip amts) := by
    rw [loopPure_exchanges]
    simp
  obtain ⟨T, hT⟩ : ∃ T, (loopPure (accs.zip amts) 0 ([], none, none)).2.2 = T :=
    ⟨_, rfl⟩
  have hS : loopPure (accs.zip amts) 0 ([], none, none)
      = (explicitOf (accs.zip amts), (none : Option Nat), T) :=
    Prod.ext_iff.mpr ⟨hex, Prod.ext_iff.mpr ⟨heli, hT⟩⟩
  unfold Transaction.fromParser
  rw [if_neg hcount, hloop, hS]

/-- Master lemma, exactly one elided position: the elided exchange is
reinserted at its position with amount `zero(anchor) - total`. -/
theorem fromParser_one_elided (header : TxnHeader)
    (A1 A2 : List TxnAccount) (m : TxnAccount)
    (l₁ l₂ : List (Option TxnAmount))
    (h1len : A1.length = l₁.length) (h2len : A2.length = l₂.length)
    (h1 : ∀ o ∈ l₁, o ≠ none) (h2 : ∀ o ∈ l₂, o ≠ none)
    (a : TxnAmount) (rest : List TxnAmount)
    (hfm : (l₁ ++ l₂).filterMap id = a :: rest) :
    Transaction.fromParser header (A1 ++ m :: A2) (l₁ ++ none :: l₂) =
      .ok ⟨header.state, header.payee, header.title,
        explicitOf (A1.zip l₁) ++
          ⟨m, (TxnAmount.zero a.currency).sub (rest.foldl TxnAmount.add a),
            true⟩ ::
          explicitOf (A2.zip l₂)⟩ := by
  have hcount : ¬ 1 <
      ((l₁ ++ none :: l₂).filter (fun a => a.isNone)).length := by
    rw [List.filter_append, filter_isNone_nil l₁ h1, List.filter_cons,
      filter_isNone_nil l₂ h2]
    simp
  have hlen : (A1 ++ m :: A2).length = (l₁ ++ none :: l₂).length := by
    simp [h1len, h2len]
  have hzip : (A1 ++ m :: A2).zip (l₁ ++ none :: l₂)
      = A1.zip l₁ ++ (m, (none : Option TxnAmount)) :: A2.zip l₂ := by
    rw [List.zip_append h1len, List.zip_cons_cons]
  have hloop := fromParserLoop_eq_loopPure (A1 ++ m :: A2)
    (l₁ ++ none :: l₂) [] [] none none hlen
  simp only [List.nil_append, List.length_nil] at hloop
  rw [hzip] at hloop
  have hP1len : (A1.zip l₁).length = l₁.length := by
    rw [List.length_zip A1 l₁, h1len]
    simp
  -- evaluate the loop on the decomposed pair list
  rw [loopPure_append] at hloop
  have hS1ex : (loopPure (A1.zip l₁) 0 ([], none, none)).1
      = explicitOf (A1.zip l₁) := by
    rw [loopPure_exchanges]
    simp
  have hS1eli : (loopPure (A1.zip l₁) 0 ([], none, none)).2.1 = none := by
    apply loopPure_elided_none
    intro pr hpr
    obtain ⟨pa, po⟩ := pr
    exact h1 po (List.of_mem_zip hpr).2
  have hS1tot : (loopPure (A1.zip l₁) 0 ([], none, none)).2.2
      = addTotal none (l₁.filterMap id) := by
    rw [loopPure_total, zip_filterMap_snd A1 l₁ h1len]
  have hS1 : loopPure (A1.zip l₁) 0 ([], none, none)
      = (explicitOf (A1.zip l₁), (none : Option Nat),
          addTotal none (l₁.filterMap id)) :=
    Prod.ext_iff.mpr ⟨hS1ex, Prod.ext_iff.mpr ⟨hS1eli, hS1tot⟩⟩
  rw [hS1] at hloop
  rw [show (0 + (A1.zip l₁).length) = l₁.length from by rw [hP1len]; omega]
    at hloop
  simp only [loopPure] at hloop
  have hS2 : loopPure (A2.zip l₂) (l₁.length + 1)
      (explicitOf (A1.zip l₁), some l₁.length, addTotal none (l₁.filterMap id))
      = (explicitOf (A1.zip l₁) ++ explicitOf (A2.zip l₂), some l₁.length,
          some (rest.foldl TxnAmount.add a)) := by
    refine Prod.ext_iff.mpr ⟨?_, Prod.ext_iff.mpr ⟨?_, ?_⟩⟩
    · exact loopPure_exchanges _ _ _ _ _
    · apply loopPure_elided_none
      intro pr hpr
      obtain ⟨pa, po⟩ := pr
      exact h2 po (List.of_mem_zip hpr).2
    · rw [loopPure_total, zip_filterMap_snd A2 l₂ h2len, ← addTotal_append,
        ← List.filterMap_append, hfm]
      show addTotal (some a) rest = _
      exact addTotal_some a rest
  rw [hS2] at hloop
  have hElen : (explicitOf (A1.zip l₁)).length = l₁.length := by
    have hc := congrArg List.length (explicitOf_map_amount A1 l₁ h1len)
    simpa [filterMap_id_length l₁ h1] using hc
  have hmap : (explicitOf (A1.zip l₁) ++ explicitOf (A2.zip l₂)).map
      (fun e => e.amount) = a :: rest := by
    rw [List.map_append, explicitOf_map_amount A1 l₁ h1len,
      explicitOf_map_amount A2 l₂ h2len, ← List.filterMap_append, hfm]
  obtain ⟨e0, E', hE⟩ : ∃ e0 E',
      explicitOf (A1.zip l₁) ++ explicitOf (A2.zip l₂) = e0 :: E' := by
    cases hEfull : explicitOf (A1.zip l₁) ++ explicitOf (A2.zip l₂) with
    | nil => rw [hEfull] at hmap; simp at hmap
    | cons e0 E' => exact ⟨e0, E', rfl⟩
  have he0a : e0.amount = a := by
    rw [hE] at hmap
    simp at hmap
    exact hmap.1
  have hget0 : (explicitOf (A1.zip l₁) ++ explicitOf (A2.zip l₂)).get? 0
      = some e0 := by
    rw [hE]
    rfl
  have hgetm : (A1 ++ m :: A2).get? l₁.length = some m := by
    rw [← h1len, List.get?_append_right (le_refl A1.length)]
    simp
  have hposle : l₁.length ≤
      (explicitOf (A1.zip l₁) ++ explicitOf (A2.zip l₂)).length := by
    rw [List.length_append, hElen]
    omega
  have htake : (explicitOf (A1.zip l₁) ++ explicitOf (A2.zip l₂)).take
      l₁.length = explicitOf (A1.zip l₁) := by
    rw [← hElen]
    exact List.take_left _ _
  have hdrop : (explicitOf (A1.zip l₁) ++ explicitOf (A2.zip l₂)).drop
      l₁.length = explicitOf (A2.zip l₂) := by
    rw [← hElen]
    exact List.drop_left _ _
  unfold Transaction.fromParser
  rw [if_neg hcount, hloop]
  dsimp only
  rw [hgetm, hget0]
  dsimp only
  rw [if_pos hposle, htake, hdrop, he0a]

theorem one_none_split (l : List (Option TxnAmount)) (hn : none ∈ l)
    (hc : (l.filter (fun a => a.isNone)).length ≤ 1) :
    ∃ l₁ l₂, l = l₁ ++ none :: l₂ ∧ (∀ o ∈ l₁, o ≠ none) ∧
      (∀ o ∈ l₂, o ≠ none) := by
  induction l with
  | nil => simp at hn
  | cons o rest ih =>
    cases o with
    | none =>
      refine ⟨[], rest, by simp, by simp, ?_⟩
      have hfl : (List.filter (fun a => a.isNone) ((none : Option TxnAmount)
          :: rest)).length = (List.filter (fun a => a.isNone) rest).length + 1 := by
        simp [List.filter_cons]
      intro o ho heq
      subst heq
      have hmem : none ∈ rest.filter (fun a => a.isNone) :=
        List.mem_filter.mpr ⟨ho, by simp⟩
      have := List.length_pos.mpr (List.ne_nil_of_mem hmem)
      omega
    | some a =>
      have hn' : none ∈ rest := by simpa using hn
      have hc' : (rest.filter (fun x => x.isNone)).length ≤ 1 := by
        simpa [List.filter_cons] using hc
      obtain ⟨l₁, l₂, rfl, hl1, hl2⟩ := ih hn' hc'
      refine ⟨some a :: l₁, l₂, by simp, ?_, hl2⟩
      intro o ho
      rcases List.mem_cons.mp ho with rfl | ho'
      · simp
      · exact hl1 o ho'

theorem explicitOf_zip_length (accs : List TxnAccount)
    (amts : List (Option TxnAmount)) (h : accs.length = amts.length)
    (hn : ∀ o ∈ amts, o ≠ none) :
    (explicitOf (accs.zip amts)).length = amts.length := by
  have hc := congrArg List.length (explicitOf_map_amount accs amts h)
  simpa [filterMap_id_length amts hn] using hc

/-- Master lemma, one elided position, for an undecomposed account list of
matching length. -/
theorem fromParser_one_elided_any (header : TxnHeader) (accs : List TxnAccount)
    (l₁ l₂ : List (Option TxnAmount))
    (hlen : accs.length = (l₁ ++ none :: l₂).length)
    (h1 : ∀ o ∈ l₁, o ≠ none) (h2 : ∀ o ∈ l₂, o ≠ none)
    (a : TxnAmount) (rest : List TxnAmount)
    (hfm : (l₁ ++ l₂).filterMap id = a :: rest) :
    ∃ acct, accs.get? l₁.length = some acct ∧
      Transaction.fromParser header accs (l₁ ++ none :: l₂) =
        .ok ⟨header.state, header.payee, header.title,
          explicitOf ((accs.take l₁.length).zip l₁) ++
            ⟨acct, (TxnAmount.zero a.currency).sub
                (rest.foldl TxnAmount.add a), true⟩ ::
            explicitOf ((accs.drop (l₁.length + 1)).zip l₂)⟩ ∧
      explicitOf ((accs.take l₁.length).zip l₁) ++
          explicitOf ((accs.drop (l₁.length + 1)).zip l₂)
        = explicitOf (accs.zip (l₁ ++ none :: l₂)) := by
  have hlen' : accs.length = l₁.length + (l₂.length + 1) := by
    simpa using hlen
  have hplen : l₁.length < accs.length := by omega
  have hdecomp : accs = accs.take l₁.length ++
      accs[l₁.length] :: accs.drop (l₁.length + 1) := by
    conv_lhs => rw [← List.take_append_drop l₁.length accs]
    rw [List.drop_eq_getElem_cons hplen]
  have hA1len : (accs.take l₁.length).length = l₁.length := by
    simp
    omega
  have hA2len : (accs.drop (l₁.length + 1)).length = l₂.length := by
    simp
    omega
  refine ⟨accs[l₁.length], ?_, ?_, ?_⟩
  · rw [List.get?_eq_getElem?, List.getElem?_eq_getElem hplen]
  · conv_lhs => rw [hdecomp]
    exact fromParser_one_elided header (accs.take l₁.length)
      (accs.drop (l₁.length + 1)) (accs[l₁.length]) l₁ l₂ hA1len hA2len
      h1 h2 a rest hfm
  · conv_rhs => rw [hdecomp]
    rw [List.zip_append hA1len, List.zip_cons_cons]
    unfold explicitOf
    rw [List.filterMap_append, List.filterMap_cons]
    rfl

/-- C1 (amended with the caller-side invariant that the account and amount
lists have equal length): when exactly one amount position is elided and
`from_parser` returns a transaction, that transaction carries at the elided
position an exchange flagged `amount_elided` whose amount is
`zero(anchor) - total`, the total folding all non-elided amounts with `add`
and the anchor being the first non-elided amount's currency. -/
theorem C1_elided_inference (header : TxnHeader) (accs : List TxnAccount)
    (l₁ l₂ : List (Option TxnAmount))
    (hlen : accs.length = (l₁ ++ none :: l₂).length)
    (h1 : ∀ o ∈ l₁, o ≠ none) (h2 : ∀ o ∈ l₂, o ≠ none)
    (t : Transaction)
    (hok : Transaction.fromParser header accs (l₁ ++ none :: l₂)
      = .ok t) :
    ∃ a rest e,
      (l₁ ++ l₂).filterMap id = a :: rest ∧
      t.exchanges.get? l₁.length = some e ∧
      e.amount_elided = true ∧
      e.amount = (TxnAmount.zero a.currency).sub
        (rest.foldl TxnAmount.add a) := by
  cases hfm : (l₁ ++ l₂).filterMap id with
  | nil =>
    exfalso
    have hlen0 := congrArg List.length hfm
    have hid : ∀ o ∈ l₁ ++ l₂, o ≠ none := by
      intro o ho
      rcases List.mem_append.mp ho with h | h
      · exact h1 o h
      · exact h2 o h
    rw [filterMap_id_length (l₁ ++ l₂) hid] at hlen0
    simp at hlen0
    obtain ⟨hl1, hl2⟩ := hlen0
    subst hl1
    subst hl2
    have haccs : ∃ acc, accs = [acc] := by
      cases accs with
      | nil => simp at hlen
      | cons acc rest' =>
        cases rest' with
        | nil => exact ⟨acc, rfl⟩
        | cons b tb => simp at hlen
    obtain ⟨acc, rfl⟩ := haccs
    have : Transaction.fromParser header [acc] ([] ++ none :: [])
        = PResult.panic := rfl
    rw [this] at hok
    cases hok
  | cons a rest =>
    obtain ⟨acct, hget, hrun, -⟩ :=
      fromParser_one_elided_any header accs l₁ l₂ hlen h1 h2 a rest hfm
    rw [hrun] at hok
    injection hok with hok
    subst hok
    have hE1len : (explicitOf ((accs.take l₁.length).zip l₁)).length
        = l₁.length := by
      refine explicitOf_zip_length _ l₁ ?_ h1
      have hlen' : accs.length = l₁.length + (l₂.length + 1) := by
        simpa using hlen
      simp
      omega
    refine ⟨a, rest,
      ⟨acct, (TxnAmount.zero a.currency).sub (rest.foldl TxnAmount.add a),
        true⟩, rfl, ?_, rfl, rfl⟩
    show (explicitOf ((accs.take l₁.length).zip l₁) ++ _ :: _).get? l₁.length
      = _
    rw [List.get?_append_right (le_of_eq hE1len)]
    rw [hE1len]
    simp

/-- Counterexample to C1 as stated: with one account but two amount
positions, exactly one position is elided, yet `from_parser` returns a
transaction with no elided exchange at all (the loop only walks the account
list). -/
theorem C1_counterexample :
    Transaction.fromParser ⟨.settled, none, "t"⟩ [TxnAccount.assets [0]]
        [some ⟨199, 0, []⟩, none]
      = PResult.ok ⟨.settled, none, "t",
          [⟨TxnAccount.assets [0], ⟨199, 0, []⟩, false⟩]⟩ ∧
    ([some (⟨199, 0, []⟩ : TxnAmount), none].filter
        (fun a => a.isNone)).length = 1 ∧
    ∀ e ∈ [Exchange.mk (TxnAccount.assets [0]) ⟨199, 0, []⟩ false],
      e.amount_elided = false := by
  refine ⟨rfl, rfl, ?_⟩
  intro e he
  simp at he
  rw [he]

/-- Witness for C1: the `[Assets:Bank:SVB, Expenses:Monthly:Splurge]` /
`[None, Some(199 USD)]` example resolves the first exchange to `-199` in the
anchor currency with the elided flag, and `errors(WithSum)` is `None`. -/
theorem C1_elided_inference_witness :
    (∃ a rest e,
      (([] ++ [some (⟨199, 0, []⟩ : TxnAmount)]).filterMap id = a :: rest) ∧
      (Transaction.mk TransactionState.settled (some "travel-agent")
          "Europe Travel"
          [⟨TxnAccount.assets [0, 1], ⟨-199, 0, []⟩, true⟩,
           ⟨TxnAccount.expenses [2, 3], ⟨199, 0, []⟩, false⟩]).exchanges.get?
          ([] : List (Option TxnAmount)).length = some e ∧
      e.amount_elided = true ∧
      e.amount = (TxnAmount.zero a.currency).sub
        (rest.foldl TxnAmount.add a)) ∧
    Transaction.fromParser
        ⟨TransactionState.settled, some "travel-agent", "Europe Travel"⟩
        [TxnAccount.assets [0, 1], TxnAccount.expenses [2, 3]]
        [none, some ⟨199, 0, []⟩]
      = PResult.ok
          ⟨TransactionState.settled, some "travel-agent", "Europe Travel",
           [⟨TxnAccount.assets [0, 1], ⟨-199, 0, []⟩, true⟩,
            ⟨TxnAccount.expenses [2, 3], ⟨199, 0, []⟩, false⟩]⟩ ∧
    (Transaction.mk TransactionState.settled (some "travel-agent")
        "Europe Travel"
        [⟨TxnAccount.assets [0, 1], ⟨-199, 0, []⟩, true⟩,
         ⟨TxnAccount.expenses [2, 3], ⟨199, 0, []⟩, false⟩]).errors .withSum
      = none := by
  have hneg : (TxnAmount.zero 0).sub ⟨199, 0, []⟩ = ⟨-199, 0, []⟩ := by
    simp [TxnAmount.zero, TxnAmount.sub, TxnAmount.add, TxnAmount.neg]
  have hrun : Transaction.fromParser
      ⟨TransactionState.settled, some "travel-agent", "Europe Travel"⟩
      [TxnAccount.assets [0, 1], TxnAccount.expenses [2, 3]]
      [none, some ⟨199, 0, []⟩]
    = PResult.ok
        ⟨TransactionState.settled, some "travel-agent", "Europe Travel",
         [⟨TxnAccount.assets [0, 1], ⟨-199, 0, []⟩, true⟩,
          ⟨TxnAccount.expenses [2, 3], ⟨199, 0, []⟩, false⟩]⟩ := by
    simp [Transaction.fromParser, fromParserLoop, hneg]
  have herr : (Transaction.mk TransactionState.settled (some "travel-agent")
      "Europe Travel"
      [⟨TxnAccount.assets [0, 1], ⟨-199, 0, []⟩, true⟩,
       ⟨TxnAccount.expenses [2, 3], ⟨199, 0, []⟩, false⟩]).errors .withSum
      = none := by
    simp [Transaction.errors, Transaction.sum, List.find?, TxnAmount.add,
      TxnAmount.is_zero]
  refine ⟨?_, hrun, herr⟩
  exact C1_elided_inference
    ⟨TransactionState.settled, some "travel-agent", "Europe Travel"⟩
    [TxnAccount.assets [0, 1], TxnAccount.expenses [2, 3]]
    [] [some ⟨199, 0, []⟩] (by simp) (by simp) (by simp) _ hrun

/-- C9 (amended with the caller-side equal-length invariant): with equally
long account and amount lists, and a non-elided amount present whenever an
elided one is, `from_parser` never reaches a panicking access. -/
theorem C9_no_panic (header : TxnHeader) (accs : List TxnAccount)
    (amts : List (Option TxnAmount))
    (hlen : accs.length = amts.length)
    (hsome : none ∈ amts → ∃ b, some b ∈ amts) :
    Transaction.fromParser header accs amts ≠ PResult.panic := by
  by_cases hcount : 1 < (amts.filter (fun a => a.isNone)).length
  · unfold Transaction.fromParser
    rw [if_pos hcount]
    simp
  · by_cases hnone : none ∈ amts
    · obtain ⟨l₁, l₂, heq, h1, h2⟩ := one_none_split amts hnone (by omega)
      subst heq
      obtain ⟨b, hb⟩ := hsome hnone
      have hbm : some b ∈ l₁ ++ l₂ := by
        rcases List.mem_append.mp hb with h | h
        · exact List.mem_append.mpr (Or.inl h)
        · rcases List.mem_cons.mp h with heq' | h'
          · exact absurd heq' (by simp)
          · exact List.mem_append.mpr (Or.inr h')
      have hmem : b ∈ (l₁ ++ l₂).filterMap id :=
        List.mem_filterMap.mpr ⟨some b, hbm, rfl⟩
      cases hfm : (l₁ ++ l₂).filterMap id with
      | nil =>
        rw [hfm] at hmem
        simp at hmem
      | cons a rest =>
        obtain ⟨acct, -, hrun, -⟩ :=
          fromParser_one_elided_any header accs l₁ l₂ hlen h1 h2 a rest hfm
        rw [hrun]
        simp
    · have hno : ∀ o ∈ amts, o ≠ none := by
        intro o ho heq
        subst heq
        exact hnone ho
      rw [fromParser_no_elided header accs amts hlen hno]
      simp

/-- Counterexample to C9 as stated: two accounts against one (non-elided)
amount satisfy the claim's precondition, yet `amounts[1]` panics. -/
theorem C9_counterexample :
    Transaction.fromParser ⟨.settled, none, "t"⟩
        [TxnAccount.assets [0], TxnAccount.expenses [1]] [some ⟨1, 0, []⟩]
      = PResult.panic ∧
    ∀ o ∈ [some (⟨1, 0, []⟩ : TxnAmount)], o ≠ none := by
  refine ⟨rfl, ?_⟩
  intro o ho
  simp at ho
  rw [ho]
  simp

/-- Witness for C9: a two-leg transaction with one elided amount does not
panic. -/
theorem C9_no_panic_witness :
    Transaction.fromParser ⟨.settled, none, "t"⟩
        [TxnAccount.assets [0], TxnAccount.expenses [1]]
        [none, some ⟨5, 0, []⟩] ≠ PResult.panic :=
  C9_no_panic ⟨.settled, none, "t"⟩
    [TxnAccount.assets [0], TxnAccount.expenses [1]]
    [none, some ⟨5, 0, []⟩] (by simp)
    (fun _ => ⟨⟨5, 0, []⟩, by simp⟩)

theorem filter_explicit (E : List Exchange)
    (h : ∀ e ∈ E, e.amount_elided = false) :
    E.filter (fun e => !e.amount_elided) = E := by
  rw [List.filter_eq_self]
  intro e he
  simp [h e he]

/-- C5 (amended: the stable error text is the code's
`"only 1 account can has its amount elided"`): more than one elided amount is
rejected with that single error by both the parse-side check and
`from_parser`; with at most one elided amount that error is never produced,
the parse-side check keeps the value unchanged, and every explicit exchange
is kept in order. -/
theorem C5_elision_cardinality (pt : ParsedTransaction) (header : TxnHeader)
    (accs : List TxnAccount) (amts : List (Option TxnAmount)) :
    (1 < (pt.exchanges.filter (fun item => item.isNone)).length →
      pt.validate = .error "only 1 account can has its amount elided") ∧
    ((pt.exchanges.filter (fun item => item.isNone)).length ≤ 1 →
      pt.validate = .ok pt) ∧
    (1 < (amts.filter (fun a => a.isNone)).length →
      Transaction.fromParser header accs amts
        = .error "only 1 account can has its amount elided") ∧
    ((amts.filter (fun a => a.isNone)).length ≤ 1 →
      ∀ msg, Transaction.fromParser header accs amts ≠ .error msg) ∧
    (accs.length = amts.length →
      ∀ tr, Transaction.fromParser header accs amts = .ok tr →
        tr.exchanges.filter (fun e => !e.amount_elided)
          = explicitOf (accs.zip amts)) := by
  refine ⟨?_, ?_, ?_, ?_, ?_⟩
  · intro hcount
    unfold ParsedTransaction.validate
    rw [if_pos hcount]
  · intro hcount
    unfold ParsedTransaction.validate
    rw [if_neg (by omega)]
  · intro hcount
    unfold Transaction.fromParser
    rw [if_pos hcount]
  · intro hcount msg
    unfold Transaction.fromParser
    rw [if_neg (by omega)]
    cases hl : fromParserLoop amts accs 0 [] none none with
    | error e => exact absurd hl (fromParserLoop_ne_error amts accs 0 [] none none e)
    | panic => simp
    | ok st =>
      obtain ⟨ex, eli, tot⟩ := st
      dsimp only
      cases eli with
      | none => simp
      | some pos =>
        dsimp only
        rcases accs.get? pos with - | acct <;>
          rcases ex.get? 0 with - | e0 <;>
          rcases tot with - | tt <;>
          simp <;>
          split <;>
          simp
  · intro hlen tr htr
    by_cases hcount : 1 < (amts.filter (fun a => a.isNone)).length
    · unfold Transaction.fromParser at htr
      rw [if_pos hcount] at htr
      cases htr
    · by_cases hnone : none ∈ amts
      · obtain ⟨l₁, l₂, heq, h1, h2⟩ := one_none_split amts hnone (by omega)
        subst heq
        cases hfm : (l₁ ++ l₂).filterMap id with
        | nil =>
          exfalso
          have hlen0 := congrArg List.length hfm
          have hid : ∀ o ∈ l₁ ++ l₂, o ≠ none := by
            intro o ho
            rcases List.mem_append.mp ho with h | h
            · exact h1 o h
            · exact h2 o h
          rw [filterMap_id_length (l₁ ++ l₂) hid] at hlen0
          simp at hlen0
          obtain ⟨hl1, hl2⟩ := hlen0
          subst hl1
          subst hl2
          have haccs : ∃ acc, accs = [acc] := by
            cases accs with
            | nil => simp at hlen
            | cons acc rest' =>
              cases rest' with
              | nil => exact ⟨acc, rfl⟩
              | cons bb tb => simp at hlen
          obtain ⟨acc, rfl⟩ := haccs
          have hpanic : Transaction.fromParser header [acc]
              ([] ++ none :: []) = PResult.panic := rfl
          rw [hpanic] at htr
          cases htr
        | cons a rest =>
          obtain ⟨acct, -, hrun, hEeq⟩ :=
            fromParser_one_elided_any header accs l₁ l₂ hlen h1 h2 a rest hfm
          rw [hrun] at htr
          injection htr with htr
          subst htr
          show (explicitOf ((accs.take l₁.length).zip l₁) ++
              ⟨acct, (TxnAmount.zero a.currency).sub
                (rest.foldl TxnAmount.add a), true⟩ ::
              explicitOf ((accs.drop (l₁.length + 1)).zip l₂)).filter
              (fun e => !e.amount_elided)
            = explicitOf (accs.zip (l₁ ++ none :: l₂))
          rw [List.filter_append, List.filter_cons]
          rw [filter_explicit _ (explicitOf_not_elided _),
            filter_explicit _ (explicitOf_not_elided _)]
          simpa using hEeq
      · have hno : ∀ o ∈ amts, o ≠ none := by
          intro o ho heq
          subst heq
          exact hnone ho
        rw [fromParser_no_elided header accs amts hlen hno] at htr
        injection htr with htr
        subst htr
        show (explicitOf (accs.zip amts)).filter (fun e => !e.amount_elided)
          = explicitOf (accs.zip amts)
        exact filter_explicit _ (explicitOf_not_elided _)

/-- Counterexample to C5 as stated: the stable error string of the code is
`"only 1 account can has its amount elided"`, not the claimed
`"only one account may have its amount elided"`. -/
theorem C5_counterexample :
    Transaction.fromParser ⟨.settled, none, "t"⟩
        [TxnAccount.assets [0], TxnAccount.expenses [1]] [none, none]
      = .error "only 1 account can has its amount elided" ∧
    ParsedTransaction.validate ⟨[.assets ["A"], .expenses ["B"]], [none, none]⟩
      = .error "only 1 account can has its amount elided" ∧
    "only 1 account can has its amount elided"
      ≠ "only one account may have its amount elided" := by
  exact ⟨rfl, rfl, by decide⟩

/-- Witness for C5: two elided amounts are rejected; one elided amount passes
the parse-side check unchanged. -/
theorem C5_elision_cardinality_witness :
    ParsedTransaction.validate ⟨[], [none, none]⟩
      = .error "only 1 account can has its amount elided" ∧
    ParsedTransaction.validate ⟨[], [some ⟨1, "USD", none⟩, none]⟩
      = .ok ⟨[], [some ⟨1, "USD", none⟩, none]⟩ ∧
    Transaction.fromParser ⟨.settled, none, "t"⟩ [] [none, none]
      = .error "only 1 account can has its amount elided" := by
  refine ⟨?_, ?_, ?_⟩
  · exact (C5_elision_cardinality ⟨[], [none, none]⟩ ⟨.settled, none, "t"⟩
      [] []).1 (by decide)
  · exact (C5_elision_cardinality ⟨[], [some ⟨1, "USD", none⟩, none]⟩
      ⟨.settled, none, "t"⟩ [] []).2.1 (by decide)
  · exact (C5_elision_cardinality ⟨[], []⟩ ⟨.settled, none, "t"⟩
      [] [none, none]).2.2.1 (by decide)

/-- C4: `errors` reports `Unbalanced` whenever there is at most one exchange,
for either check mode; `WithoutSum` does no arithmetic and reports nothing
else; `WithSum` anchors at the first non-elided exchange's currency, folds
every exchange (elided included) with `add`, reports `NotZeroSum` exactly when
the folded nominal is not exactly zero, `Other` when no non-elided exchange
exists (so `sum()` fails), and nothing otherwise. -/
theorem C4_errors_report (t : Transaction) :
    (t.exchanges.length ≤ 1 → ∀ check, t.errors check = some .unbalanced) ∧
    (1 < t.exchanges.length → t.errors .withoutSum = none) ∧
    (1 < t.exchanges.length →
      ∀ e0, t.exchanges.find? (fun e => !e.amount_elided) = some e0 →
        ((t.errors .withSum = some .notZeroSum ↔
          ¬ (t.exchanges.foldl (fun acc it => acc.add it.amount)
              (TxnAmount.zero e0.amount.currency)).nominal = 0) ∧
         ((t.exchanges.foldl (fun acc it => acc.add it.amount)
              (TxnAmount.zero e0.amount.currency)).nominal = 0 →
          t.errors .withSum = none))) ∧
    (1 < t.exchanges.length →
      t.exchanges.find? (fun e => !e.amount_elided) = none →
      t.errors .withSum
        = some (.other
            "no valid transaction can be used for currency candidate")) := by
  refine ⟨?_, ?_, ?_, ?_⟩
  · intro hle check
    unfold Transaction.errors
    rw [if_pos hle]
  · intro hgt
    unfold Transaction.errors
    rw [if_neg (by omega)]
  · intro hgt e0 hfind
    unfold Transaction.errors Transaction.sum
    rw [if_neg (by omega), hfind]
    dsimp only
    by_cases hz : (t.exchanges.foldl (fun acc it => acc.add it.amount)
        ((⟨0, e0.amount.currency, []⟩ : TxnAmount))).nominal = 0
    · constructor
      · rw [show TxnAmount.zero e0.amount.currency
            = (⟨0, e0.amount.currency, []⟩ : TxnAmount) from rfl]
        simp [TxnAmount.is_zero, hz]
      · intro _
        simp [TxnAmount.is_zero, hz]
    · constructor
      · rw [show TxnAmount.zero e0.amount.currency
            = (⟨0, e0.amount.currency, []⟩ : TxnAmount) from rfl]
        simp [TxnAmount.is_zero, hz]
      · intro hz'
        rw [show TxnAmount.zero e0.amount.currency
            = (⟨0, e0.amount.currency, []⟩ : TxnAmount) from rfl] at hz'
        exact absurd hz' hz
  · intro hgt hfind
    unfold Transaction.errors Transaction.sum
    rw [if_neg (by omega), hfind]

/-- Witness for C4: a two-leg transaction that sums to 3 in the anchor
currency reports `NotZeroSum` under `WithSum` and nothing under
`WithoutSum`. -/
theorem C4_errors_report_witness :
    (Transaction.mk .settled none "w"
        [⟨TxnAccount.assets [0], ⟨1, 0, []⟩, false⟩,
         ⟨TxnAccount.expenses [1], ⟨2, 0, []⟩, false⟩]).errors .withSum
      = some .notZeroSum ∧
    (Transaction.mk .settled none "w"
        [⟨TxnAccount.assets [0], ⟨1, 0, []⟩, false⟩,
         ⟨TxnAccount.expenses [1], ⟨2, 0, []⟩, false⟩]).errors .withoutSum
      = none := by
  have h := (C4_errors_report (Transaction.mk .settled none "w"
      [⟨TxnAccount.assets [0], ⟨1, 0, []⟩, false⟩,
       ⟨TxnAccount.expenses [1], ⟨2, 0, []⟩, false⟩])).2.2.1 (by simp)
    ⟨TxnAccount.assets [0], ⟨1, 0, []⟩, false⟩ (by simp [List.find?])
  refine ⟨h.1.mpr ?_, (C4_errors_report _).2.1 (by simp)⟩
  simp [TxnAmount.add, TxnAmount.zero]
  norm_num

end Roasted
